import Mathlib

/-!
Bowling frame scorer (`bowling/bowlingScores.js`).

A shallow embedding of `caclulateFrameScores`, `calculateStrikeScore` and
`calculateSpareScore`, followed by theorems about them.

Roll strings become the type `Roll`; `null` frame scores become `none`; a
thrown `Error(msg)` becomes `Except.error msg`.
-/

namespace Bowling

/-- One entry of the `rolls` array: the string `'X'`, the string `'/'`, or a
decimal numeral `n` on which `parseInt` yields `n`. -/
inductive Roll where
  | Pins (n : Nat)
  | Spare
  | Strike
  deriving DecidableEq, Repr

/-- The three reusable error messages declared at the top of the source file. -/
inductive ErrorMsg where
  | spareErrorMsg
  | strikeErrorMsg
  | scoreErrorMsg
  deriving DecidableEq, Repr

/-- Source lines 64-100: score of the strike at index `currentRoll`. -/
def calculateStrikeScore (currentRoll : Nat) (rolls : List Roll) :
    Except ErrorMsg (Option Nat) :=
  if h : currentRoll + 2 ≥ rolls.length then
    -- not enough rolls left to calculate the frame. return a null
    pure none
  else do
    let strikeScore : Nat := 10
    let strikeScore ← match rolls[currentRoll + 1] with
      | .Spare => throw ErrorMsg.spareErrorMsg
      | .Strike => pure 20
      | .Pins n => pure (strikeScore + n)
    let strikeScore ← match rolls[currentRoll + 2] with
      | .Spare =>
          if strikeScore = 20 then throw ErrorMsg.spareErrorMsg
          else pure 20
      | .Strike =>
          if strikeScore ≠ 20 then throw ErrorMsg.strikeErrorMsg
          else pure 30
      | .Pins n => pure (strikeScore + n)
    if strikeScore > 30 then throw ErrorMsg.scoreErrorMsg
    else pure (some strikeScore)

/-- Source lines 103-121: score of the spare at index `currentRoll`. -/
def calculateSpareScore (currentRoll : Nat) (rolls : List Roll) :
    Except ErrorMsg (Option Nat) :=
  let spareScore : Nat := 10
  if h : currentRoll + 1 ≥ rolls.length then
    -- incomplete frame. return null
    pure none
  else
    match rolls[currentRoll + 1] with
    | .Spare => throw ErrorMsg.spareErrorMsg
    | .Strike => pure (some 20)
    | .Pins n =>
        let spareScore := spareScore + n
        if spareScore > 20 then throw ErrorMsg.scoreErrorMsg
        else pure (some spareScore)

/-- The local variables of `caclulateFrameScores`. -/
structure LoopState where
  scoresByFrame : List (Option Nat)
  currentFrameScore : Nat
  roll : Nat
  deriving DecidableEq, Repr

/-- Source lines 20-58: one pass through the body of the `while` loop, entered
with `roll < rolls.length`. -/
def loopBody (rolls : List Roll) (s : LoopState) (h : s.roll < rolls.length) :
    Except ErrorMsg LoopState :=
  match rolls[s.roll] with
  | .Strike =>
      match calculateStrikeScore s.roll rolls with
      | .error e => .error e
      | .ok score =>
          .ok { scoresByFrame := s.scoresByFrame ++ [score],
                currentFrameScore := 0,
                roll := s.roll + 1 }
  | .Spare =>
      -- the first roll of a frame cant be a spare
      .error ErrorMsg.spareErrorMsg
  | .Pins first =>
      if h1 : s.roll + 1 ≥ rolls.length then
        -- incomplete frame. push null and skip further logic for this cycle
        .ok { scoresByFrame := s.scoresByFrame ++ [none],
              currentFrameScore := s.currentFrameScore,
              roll := s.roll + 1 }
      else
        let currentFrameScore := s.currentFrameScore + first
        match rolls[s.roll + 1] with
        | .Spare =>
            match calculateSpareScore (s.roll + 1) rolls with
            | .error e => .error e
            | .ok score =>
                .ok { scoresByFrame := s.scoresByFrame ++ [score],
                      currentFrameScore := 0,
                      roll := s.roll + 2 }
        | .Strike =>
            -- the second roll of a frame cant be a strike
            .error ErrorMsg.strikeErrorMsg
        | .Pins second =>
            let currentFrameScore := currentFrameScore + second
            if currentFrameScore ≥ 10 then .error ErrorMsg.scoreErrorMsg
            else
              .ok { scoresByFrame := s.scoresByFrame ++ [some currentFrameScore],
                    currentFrameScore := 0,
                    roll := s.roll + 2 }

set_option linter.unusedVariables false in
/-- Source line 19: the `while` loop, run from state `s` until the guard
`roll < rolls.length && scoresByFrame.length < 10` fails or the body throws. -/
@[semireducible]
def whileLoop (rolls : List Roll) (s : LoopState) : Except ErrorMsg LoopState :=
  if h : s.roll < rolls.length ∧ s.scoresByFrame.length < 10 then
    match hb : loopBody rolls s h.1 with
    | .error e => .error e
    | .ok s' => whileLoop rolls s'
  else .ok s
termination_by rolls.length - s.roll
decreasing_by
  have hlt := h.1
  have : s.roll < s'.roll ∧ s'.roll ≤ rolls.length := by
    unfold loopBody at hb
    split at hb
    · split at hb
      · cases hb
      · cases hb; exact ⟨by simp, by simpa using hlt⟩
    · cases hb
    · split at hb
      · cases hb; exact ⟨by simp, by simpa using hlt⟩
      · split at hb
        · split at hb
          · cases hb
          · cases hb; exact ⟨by simp, by simp; omega⟩
        · cases hb
        · dsimp only at hb
          split at hb
          · cases hb
          · cases hb; exact ⟨by simp, by simp; omega⟩
  omega

/-- Source lines 10-61: the frame scores of a game. -/
def caclulateFrameScores (rolls : List Roll) : Except ErrorMsg (List (Option Nat)) :=
  match whileLoop rolls { scoresByFrame := [], currentFrameScore := 0, roll := 0 } with
  | .error e => .error e
  | .ok s => .ok s.scoresByFrame

/-- Pins knocked down by the roll at index `j`, as bowling counts them: 10 for
a strike, `n` for `Pins n`, and for a spare 10 minus the pin count of the roll
before it (a roll that is not a `Pins` token has no pin count, taken as 0).
This is the reading of a roll used to state what a strike is worth; the source
has no such function. -/
def pinsKnockedDown (rolls : List Roll) (j : Nat) : Nat :=
  match rolls[j]? with
  | some .Strike => 10
  | some (.Pins n) => n
  | some .Spare =>
      10 - (match rolls[j - 1]? with
            | some (.Pins m) => m
            | _ => 0)
  | none => 0

/-- The roll sequence of a list of open frames: frame `(a, b)` is the two
tokens `Pins a`, `Pins b`. Used to state claims about a prefix of open frames. -/
def openFrames : List (Nat × Nat) → List Roll
  | [] => []
  | (a, b) :: rest => Roll.Pins a :: Roll.Pins b :: openFrames rest

/-- Number of tokens the frame starting at cursor `c` takes from the roll
sequence: one for a strike frame or a lone final roll, two otherwise. -/
def frameWidth (rolls : List Roll) (c : Nat) : Nat :=
  if rolls[c]? = some Roll.Strike then 1
  else if c + 1 ≥ rolls.length then 1
  else 2

/-- Cursor at which frame `k` (0-based) starts, that is the number of tokens
taken by the frames before it. -/
def frameStart (rolls : List Roll) : Nat → Nat
  | 0 => 0
  | k + 1 => frameStart rolls k + frameWidth rolls (frameStart rolls k)

/-- Frame by frame reading of a game of numeric rolls only: each pair of rolls
gives its sum, a lone last roll gives an incomplete frame. -/
def openScores : List Nat → List (Option Nat)
  | a :: b :: rest => some (a + b) :: openScores rest
  | [_] => [none]
  | [] => []

/-- What the loop keeps true at every loop head when started from the initial
state: `currentFrameScore` is 0, the cursor is at the start of the next frame
and within the sequence, and at most ten frames have been scored. -/
def atFrameStart (rolls : List Roll) (s : LoopState) : Prop :=
  s.currentFrameScore = 0 ∧ s.roll = frameStart rolls s.scoresByFrame.length ∧
    s.roll ≤ rolls.length ∧ s.scoresByFrame.length ≤ 10

/-- The score `v` of frame `k` lies in the range of the frame's category, read
off the tokens at the frame's start: 10 to 30 for a strike frame, 10 to 20 for a
spare frame, at most 9 (and equal to the sum of its two rolls) for an open
frame. -/
def frameScoreInRange (rolls : List Roll) (k v : Nat) : Prop :=
  (rolls[frameStart rolls k]? = some Roll.Strike ∧ 10 ≤ v ∧ v ≤ 30) ∨
  (∃ a, rolls[frameStart rolls k]? = some (Roll.Pins a) ∧
    rolls[frameStart rolls k + 1]? = some Roll.Spare ∧ 10 ≤ v ∧ v ≤ 20) ∨
  (∃ a b, rolls[frameStart rolls k]? = some (Roll.Pins a) ∧
    rolls[frameStart rolls k + 1]? = some (Roll.Pins b) ∧ v = a + b ∧ v ≤ 9)

set_option linter.unusedVariables false in
/-- Number of passes through the body of the `while` loop (source line 19) made
from state `s`, the pass that throws included. It follows `whileLoop` step by
step and counts instead of returning the state. -/
@[semireducible]
def whileLoopIterations (rolls : List Roll) (s : LoopState) : Nat :=
  if h : s.roll < rolls.length ∧ s.scoresByFrame.length < 10 then
    match hb : loopBody rolls s h.1 with
    | .error _ => 1
    | .ok s' => 1 + whileLoopIterations rolls s'
  else 0
termination_by rolls.length - s.roll
decreasing_by
  have hlt := h.1
  have : s.roll < s'.roll ∧ s'.roll ≤ rolls.length := by
    unfold loopBody at hb
    split at hb
    · split at hb
      · cases hb
      · cases hb; exact ⟨by simp, by simpa using hlt⟩
    · cases hb
    · split at hb
      · cases hb; exact ⟨by simp, by simpa using hlt⟩
      · split at hb
        · split at hb
          · cases hb
          · cases hb; exact ⟨by simp, by simp; omega⟩
        · cases hb
        · dsimp only at hb
          split at hb
          · cases hb
          · cases hb; exact ⟨by simp, by simp; omega⟩
  omega

/-- The frame results scored so far are concrete scores followed by `m ≤ 2`
incomplete results, and an incomplete result leaves at most `2 - m` tokens to
read. Kept true by the loop. -/
def incompleteTail (rolls : List Roll) (s : LoopState) : Prop :=
  ∃ (pre : List (Option Nat)) (m : Nat),
    s.scoresByFrame = pre ++ List.replicate m none ∧ (∀ x ∈ pre, x ≠ none) ∧
    (m = 0 ∨ (m = 1 ∧ rolls.length ≤ s.roll + 1) ∨ (m = 2 ∧ rolls.length ≤ s.roll))

/-- Equality of results is decidable, so concrete games can be evaluated. -/
instance instDecidableEqExcept {ε α : Type} [DecidableEq ε] [DecidableEq α] :
    DecidableEq (Except ε α) := fun a b =>
  match a, b with
  | .ok x, .ok y =>
      if h : x = y then isTrue (by rw [h]) else isFalse (fun h2 => h (by cases h2; rfl))
  | .error x, .error y =>
      if h : x = y then isTrue (by rw [h]) else isFalse (fun h2 => h (by cases h2; rfl))
  | .ok _, .error _ => isFalse (fun h => by cases h)
  | .error _, .ok _ => isFalse (fun h => by cases h)

/-! ## Unfolding lemmas for the loop -/

open Roll ErrorMsg

theorem whileLoop_done (rolls : List Roll) (s : LoopState)
    (h : ¬ (s.roll < rolls.length ∧ s.scoresByFrame.length < 10)) :
    whileLoop rolls s = .ok s := by
  rw [whileLoop, dif_neg h]

theorem whileLoop_step (rolls : List Roll) (s s' : LoopState)
    (h : s.roll < rolls.length) (h10 : s.scoresByFrame.length < 10)
    (hb : loopBody rolls s h = .ok s') :
    whileLoop rolls s = whileLoop rolls s' := by
  rw [whileLoop, dif_pos ⟨h, h10⟩]
  split
  · rename_i e he; rw [hb] at he; cases he
  · rename_i t ht; rw [hb] at ht; cases ht; rfl

theorem whileLoop_error (rolls : List Roll) (s : LoopState) (e : ErrorMsg)
    (h : s.roll < rolls.length) (h10 : s.scoresByFrame.length < 10)
    (hb : loopBody rolls s h = .error e) :
    whileLoop rolls s = .error e := by
  rw [whileLoop, dif_pos ⟨h, h10⟩]
  split
  · rename_i e2 he; rw [hb] at he; cases he; rfl
  · rename_i t ht; rw [hb] at ht; cases ht

/-! ## The loop body, case by case -/

theorem loopBody_strike (rolls : List Roll) (s : LoopState) (h : s.roll < rolls.length)
    (hx : rolls[s.roll] = Strike) :
    loopBody rolls s h =
      match calculateStrikeScore s.roll rolls with
      | .error e => .error e
      | .ok score =>
          .ok { scoresByFrame := s.scoresByFrame ++ [score],
                currentFrameScore := 0,
                roll := s.roll + 1 } := by
  unfold loopBody
  split <;> simp_all

theorem loopBody_spare (rolls : List Roll) (s : LoopState) (h : s.roll < rolls.length)
    (hx : rolls[s.roll] = Spare) :
    loopBody rolls s h = .error spareErrorMsg := by
  unfold loopBody
  split <;> simp_all

theorem loopBody_lone (rolls : List Roll) (s : LoopState) (h : s.roll < rolls.length)
    (a : Nat) (hx : rolls[s.roll] = Pins a) (hl : s.roll + 1 ≥ rolls.length) :
    loopBody rolls s h =
      .ok { scoresByFrame := s.scoresByFrame ++ [none],
            currentFrameScore := s.currentFrameScore,
            roll := s.roll + 1 } := by
  unfold loopBody
  split <;> simp_all

theorem loopBody_pins_spare (rolls : List Roll) (s : LoopState) (h : s.roll < rolls.length)
    (a : Nat) (hx : rolls[s.roll] = Pins a) (hl : s.roll + 1 < rolls.length)
    (hy : rolls[s.roll + 1] = Spare) :
    loopBody rolls s h =
      match calculateSpareScore (s.roll + 1) rolls with
      | .error e => .error e
      | .ok score =>
          .ok { scoresByFrame := s.scoresByFrame ++ [score],
                currentFrameScore := 0,
                roll := s.roll + 2 } := by
  unfold loopBody
  split
  · simp_all
  · simp_all
  · rw [dif_neg (by omega)]
    split <;> simp_all

theorem loopBody_pins_strike (rolls : List Roll) (s : LoopState) (h : s.roll < rolls.length)
    (a : Nat) (hx : rolls[s.roll] = Pins a) (hl : s.roll + 1 < rolls.length)
    (hy : rolls[s.roll + 1] = Strike) :
    loopBody rolls s h = .error strikeErrorMsg := by
  unfold loopBody
  split
  · simp_all
  · simp_all
  · rw [dif_neg (by omega)]
    split <;> simp_all

theorem loopBody_pins_pins (rolls : List Roll) (s : LoopState) (h : s.roll < rolls.length)
    (a b : Nat) (hx : rolls[s.roll] = Pins a) (hl : s.roll + 1 < rolls.length)
    (hy : rolls[s.roll + 1] = Pins b) :
    loopBody rolls s h =
      if s.currentFrameScore + a + b ≥ 10 then .error scoreErrorMsg
      else
        .ok { scoresByFrame := s.scoresByFrame ++ [some (s.currentFrameScore + a + b)],
              currentFrameScore := 0,
              roll := s.roll + 2 } := by
  unfold loopBody
  split
  · simp_all
  · simp_all
  · rw [dif_neg (by omega)]
    rename_i first hf
    have : first = a := by rw [hx] at hf; cases hf; rfl
    subst this
    dsimp only
    split
    · simp_all
    · simp_all
    · rename_i second hs
      have : second = b := by rw [hy] at hs; cases hs; rfl
      subst this
      rfl

/-! ## The two lookahead helpers, case by case -/

theorem calculateSpareScore_short (c : Nat) (rolls : List Roll)
    (h : c + 1 ≥ rolls.length) : calculateSpareScore c rolls = .ok none := by
  unfold calculateSpareScore
  simp only [dif_pos h]
  rfl

theorem calculateSpareScore_spare (c : Nat) (rolls : List Roll)
    (h : c + 1 < rolls.length) (hx : rolls[c + 1] = Spare) :
    calculateSpareScore c rolls = .error spareErrorMsg := by
  unfold calculateSpareScore
  simp only [dif_neg (show ¬ c + 1 ≥ rolls.length by omega)]
  split <;> first | rfl | simp_all

theorem calculateSpareScore_strike (c : Nat) (rolls : List Roll)
    (h : c + 1 < rolls.length) (hx : rolls[c + 1] = Strike) :
    calculateSpareScore c rolls = .ok (some 20) := by
  unfold calculateSpareScore
  simp only [dif_neg (show ¬ c + 1 ≥ rolls.length by omega)]
  split <;> first | rfl | simp_all

theorem calculateSpareScore_pins (c : Nat) (rolls : List Roll) (n : Nat)
    (h : c + 1 < rolls.length) (hx : rolls[c + 1] = Pins n) :
    calculateSpareScore c rolls =
      if 10 + n > 20 then .error scoreErrorMsg else .ok (some (10 + n)) := by
  unfold calculateSpareScore
  simp only [dif_neg (show ¬ c + 1 ≥ rolls.length by omega)]
  split
  · simp_all
  · simp_all
  · rename_i m hm
    have : m = n := by rw [hx] at hm; cases hm; rfl
    subst this
    rfl

theorem calculateStrikeScore_short (c : Nat) (rolls : List Roll)
    (h : c + 2 ≥ rolls.length) : calculateStrikeScore c rolls = .ok none := by
  unfold calculateStrikeScore
  simp only [dif_pos h]
  rfl

theorem calculateStrikeScore_spare (c : Nat) (rolls : List Roll)
    (h : c + 2 < rolls.length) (hx : rolls[c + 1] = Spare) :
    calculateStrikeScore c rolls = .error spareErrorMsg := by
  unfold calculateStrikeScore
  simp only [dif_neg (show ¬ c + 2 ≥ rolls.length by omega)]
  rw [hx]
  rfl

theorem calculateStrikeScore_strike_spare (c : Nat) (rolls : List Roll)
    (h : c + 2 < rolls.length) (hx : rolls[c + 1] = Strike) (hy : rolls[c + 2] = Spare) :
    calculateStrikeScore c rolls = .error spareErrorMsg := by
  unfold calculateStrikeScore
  simp only [dif_neg (show ¬ c + 2 ≥ rolls.length by omega)]
  rw [hx, hy]
  rfl

theorem calculateStrikeScore_strike_strike (c : Nat) (rolls : List Roll)
    (h : c + 2 < rolls.length) (hx : rolls[c + 1] = Strike) (hy : rolls[c + 2] = Strike) :
    calculateStrikeScore c rolls = .ok (some 30) := by
  unfold calculateStrikeScore
  simp only [dif_neg (show ¬ c + 2 ≥ rolls.length by omega)]
  rw [hx, hy]
  rfl

theorem calculateStrikeScore_strike_pins (c : Nat) (rolls : List Roll) (b : Nat)
    (h : c + 2 < rolls.length) (hx : rolls[c + 1] = Strike) (hy : rolls[c + 2] = Pins b) :
    calculateStrikeScore c rolls =
      if 20 + b > 30 then .error scoreErrorMsg else .ok (some (20 + b)) := by
  unfold calculateStrikeScore
  simp only [dif_neg (show ¬ c + 2 ≥ rolls.length by omega)]
  rw [hx, hy]
  rfl

theorem calculateStrikeScore_pins_spare (c : Nat) (rolls : List Roll) (a : Nat)
    (h : c + 2 < rolls.length) (hx : rolls[c + 1] = Pins a) (hy : rolls[c + 2] = Spare) :
    calculateStrikeScore c rolls =
      if 10 + a = 20 then .error spareErrorMsg else .ok (some 20) := by
  unfold calculateStrikeScore
  simp only [dif_neg (show ¬ c + 2 ≥ rolls.length by omega)]
  rw [hx, hy]
  by_cases h20 : 10 + a = 20
  · simp [h20]; rfl
  · simp [h20]; rfl

theorem calculateStrikeScore_pins_strike (c : Nat) (rolls : List Roll) (a : Nat)
    (h : c + 2 < rolls.length) (hx : rolls[c + 1] = Pins a) (hy : rolls[c + 2] = Strike) :
    calculateStrikeScore c rolls =
      if 10 + a ≠ 20 then .error strikeErrorMsg else .ok (some 30) := by
  unfold calculateStrikeScore
  simp only [dif_neg (show ¬ c + 2 ≥ rolls.length by omega)]
  rw [hx, hy]
  by_cases h20 : 10 + a = 20
  · simp [h20]; rfl
  · simp [h20]; rfl

theorem calculateStrikeScore_pins_pins (c : Nat) (rolls : List Roll) (a b : Nat)
    (h : c + 2 < rolls.length) (hx : rolls[c + 1] = Pins a) (hy : rolls[c + 2] = Pins b) :
    calculateStrikeScore c rolls =
      if 10 + a + b > 30 then .error scoreErrorMsg else .ok (some (10 + a + b)) := by
  unfold calculateStrikeScore
  simp only [dif_neg (show ¬ c + 2 ≥ rolls.length by omega)]
  rw [hx, hy]
  rfl

/-! ## Inversion of a successful pass through the loop body -/

/-- A pass through the loop body that does not throw is one of the four
successful paths of the source. -/
theorem loopBody_ok_cases (rolls : List Roll) (s s' : LoopState) (h : s.roll < rolls.length)
    (hb : loopBody rolls s h = .ok s') :
    (rolls[s.roll] = Strike ∧ ∃ score, calculateStrikeScore s.roll rolls = .ok score ∧
        s' = { scoresByFrame := s.scoresByFrame ++ [score], currentFrameScore := 0,
               roll := s.roll + 1 }) ∨
    (∃ a, rolls[s.roll] = Pins a ∧ s.roll + 1 ≥ rolls.length ∧
        s' = { scoresByFrame := s.scoresByFrame ++ [none],
               currentFrameScore := s.currentFrameScore, roll := s.roll + 1 }) ∨
    (∃ a, rolls[s.roll] = Pins a ∧ ∃ h1 : s.roll + 1 < rolls.length,
        rolls[s.roll + 1] = Spare ∧
        ∃ score, calculateSpareScore (s.roll + 1) rolls = .ok score ∧
        s' = { scoresByFrame := s.scoresByFrame ++ [score], currentFrameScore := 0,
               roll := s.roll + 2 }) ∨
    (∃ a b, rolls[s.roll] = Pins a ∧ ∃ h1 : s.roll + 1 < rolls.length,
        rolls[s.roll + 1] = Pins b ∧ s.currentFrameScore + a + b < 10 ∧
        s' = { scoresByFrame := s.scoresByFrame ++ [some (s.currentFrameScore + a + b)],
               currentFrameScore := 0, roll := s.roll + 2 }) := by
  rcases hx : rolls[s.roll] with a | _ | _
  · by_cases h1 : s.roll + 1 < rolls.length
    · rcases hy : rolls[s.roll + 1] with b | _ | _
      · rw [loopBody_pins_pins rolls s h a b hx h1 hy] at hb
        by_cases hsum : s.currentFrameScore + a + b ≥ 10
        · rw [if_pos hsum] at hb
          cases hb
        · rw [if_neg hsum] at hb
          cases hb
          exact Or.inr (Or.inr (Or.inr ⟨a, b, rfl, h1, hy, by omega, rfl⟩))
      · rw [loopBody_pins_spare rolls s h a hx h1 hy] at hb
        rcases hsp : calculateSpareScore (s.roll + 1) rolls with e | score
        · rw [hsp] at hb
          cases hb
        · rw [hsp] at hb
          cases hb
          exact Or.inr (Or.inr (Or.inl ⟨a, rfl, h1, hy, score, rfl, rfl⟩))
      · rw [loopBody_pins_strike rolls s h a hx h1 hy] at hb
        cases hb
    · rw [loopBody_lone rolls s h a hx (by omega)] at hb
      cases hb
      exact Or.inr (Or.inl ⟨a, rfl, by omega, rfl⟩)
  · rw [loopBody_spare rolls s h hx] at hb
    cases hb
  · rw [loopBody_strike rolls s h hx] at hb
    rcases hst : calculateStrikeScore s.roll rolls with e | score
    · rw [hst] at hb
      cases hb
    · rw [hst] at hb
      cases hb
      exact Or.inl ⟨rfl, score, rfl, rfl⟩

/-- Every pass through the loop body that does not throw appends exactly one
frame result and moves the cursor forward by one or two, never past the end. -/
theorem loopBody_advance (rolls : List Roll) (s s' : LoopState) (h : s.roll < rolls.length)
    (hb : loopBody rolls s h = .ok s') :
    (∃ score, s'.scoresByFrame = s.scoresByFrame ++ [score]) ∧
    (s'.roll = s.roll + 1 ∨ s'.roll = s.roll + 2) ∧ s'.roll ≤ rolls.length := by
  rcases loopBody_ok_cases rolls s s' h hb with
    ⟨_, score, _, rfl⟩ | ⟨a, _, _, rfl⟩ | ⟨a, _, h1, _, score, _, rfl⟩ | ⟨a, b, _, h1, _, _, rfl⟩
  · exact ⟨⟨score, rfl⟩, Or.inl rfl, h⟩
  · exact ⟨⟨none, rfl⟩, Or.inl rfl, h⟩
  · exact ⟨⟨score, rfl⟩, Or.inr rfl, h1⟩
  · exact ⟨⟨_, rfl⟩, Or.inr rfl, h1⟩

/-- Loop invariant rule: a property kept by every successful pass through the
body holds when the loop returns, together with the negated guard. -/
theorem whileLoop_invariant (rolls : List Roll) (P : LoopState → Prop)
    (hstep : ∀ (s s' : LoopState) (h : s.roll < rolls.length),
      s.scoresByFrame.length < 10 → P s → loopBody rolls s h = .ok s' → P s') :
    ∀ (m : Nat) (s s' : LoopState), rolls.length - s.roll ≤ m → P s →
      whileLoop rolls s = .ok s' →
      P s' ∧ ¬ (s'.roll < rolls.length ∧ s'.scoresByFrame.length < 10) := by
  intro m
  induction m with
  | zero =>
    intro s s' hm hP hw
    have hg : ¬ (s.roll < rolls.length ∧ s.scoresByFrame.length < 10) := by omega
    rw [whileLoop_done rolls s hg] at hw
    cases hw
    exact ⟨hP, hg⟩
  | succ m ih =>
    intro s s' hm hP hw
    by_cases hg : s.roll < rolls.length ∧ s.scoresByFrame.length < 10
    · rcases hb : loopBody rolls s hg.1 with e | t
      · rw [whileLoop_error rolls s e hg.1 hg.2 hb] at hw
        cases hw
      · rw [whileLoop_step rolls s t hg.1 hg.2 hb] at hw
        have hadv := loopBody_advance rolls s t hg.1 hb
        exact ih t s' (by omega) (hstep s t hg.1 hg.2 hP hb) hw
    · rw [whileLoop_done rolls s hg] at hw
      cases hw
      exact ⟨hP, hg⟩

/-! ## Running the loop over a prefix of open frames -/

theorem getElem?_append_add {α : Type} (pre l : List α) (i : Nat) :
    (pre ++ l)[pre.length + i]? = l[i]? := by
  rw [List.getElem?_append_right (by omega)]
  congr 1
  omega

theorem length_openFrames (fr : List (Nat × Nat)) :
    (openFrames fr).length = 2 * fr.length := by
  induction fr with
  | nil => rfl
  | cons p fr ih =>
    obtain ⟨a, b⟩ := p
    simp only [openFrames, List.length_cons, ih]
    omega

/-- One open frame: two numeric rolls summing to at most 9 are scored as their
sum and the cursor moves forward by two. -/
theorem whileLoop_open_step (rolls : List Roll) (s : LoopState) (a b : Nat)
    (h10 : s.scoresByFrame.length < 10) (hcur : s.currentFrameScore = 0)
    (hx : rolls[s.roll]? = some (Pins a)) (hy : rolls[s.roll + 1]? = some (Pins b))
    (hsum : a + b ≤ 9) :
    whileLoop rolls s =
      whileLoop rolls { scoresByFrame := s.scoresByFrame ++ [some (a + b)],
                        currentFrameScore := 0, roll := s.roll + 2 } := by
  obtain ⟨h, hx⟩ := List.getElem?_eq_some.1 hx
  obtain ⟨h1, hy⟩ := List.getElem?_eq_some.1 hy
  apply whileLoop_step rolls s _ h h10
  rw [loopBody_pins_pins rolls s h a b hx h1 hy, hcur, if_neg (by omega)]
  simp

/-- The loop scores a run of valid open frames one by one, as long as fewer
than ten frames have been scored. -/
theorem whileLoop_openFrames (rest : List Roll) :
    ∀ (fr : List (Nat × Nat)) (pre : List Roll) (sc : List (Option Nat)),
      (∀ p ∈ fr, p.1 + p.2 ≤ 9) → sc.length + fr.length ≤ 10 →
      whileLoop (pre ++ (openFrames fr ++ rest))
          { scoresByFrame := sc, currentFrameScore := 0, roll := pre.length } =
        whileLoop (pre ++ (openFrames fr ++ rest))
          { scoresByFrame := sc ++ fr.map (fun p => some (p.1 + p.2)),
            currentFrameScore := 0, roll := pre.length + 2 * fr.length } := by
  intro fr
  induction fr with
  | nil =>
    intro pre sc _ _
    simp
  | cons p fr ih =>
    intro pre sc hv hlen
    obtain ⟨a, b⟩ := p
    have hab : a + b ≤ 9 := hv (a, b) (List.mem_cons_self _ _)
    have hv' : ∀ p ∈ fr, p.1 + p.2 ≤ 9 := fun p hp => hv p (List.mem_cons_of_mem _ hp)
    simp only [List.length_cons] at hlen
    have hrolls : pre ++ (openFrames ((a, b) :: fr) ++ rest) =
        (pre ++ [Pins a, Pins b]) ++ (openFrames fr ++ rest) := by
      simp [openFrames]
    have hx : (pre ++ (openFrames ((a, b) :: fr) ++ rest))[pre.length + 0]? = some (Pins a) := by
      rw [getElem?_append_add]; simp [openFrames]
    have hy : (pre ++ (openFrames ((a, b) :: fr) ++ rest))[pre.length + 1]? = some (Pins b) := by
      rw [getElem?_append_add]; simp [openFrames]
    rw [whileLoop_open_step _ _ a b (by simpa using by omega) rfl hx hy hab]
    rw [hrolls]
    have := ih (pre ++ [Pins a, Pins b]) (sc ++ [some (a + b)]) hv'
      (by simp only [List.length_append, List.length_singleton]; omega)
    simp only [List.length_append, List.length_cons, List.length_nil] at this
    simp only [List.map_cons, List.length_cons]
    rw [this]
    congr 2
    · simp
    · omega

/-- From the initial state, `k ≤ 10` valid open frames bring the loop to cursor
`2 * k` with their `k` sums scored. -/
theorem whileLoop_openFrames_init (fr : List (Nat × Nat)) (rest : List Roll)
    (hv : ∀ p ∈ fr, p.1 + p.2 ≤ 9) (hlen : fr.length ≤ 10) :
    whileLoop (openFrames fr ++ rest)
        { scoresByFrame := [], currentFrameScore := 0, roll := 0 } =
      whileLoop (openFrames fr ++ rest)
        { scoresByFrame := fr.map (fun p => some (p.1 + p.2)),
          currentFrameScore := 0, roll := 2 * fr.length } := by
  have := whileLoop_openFrames rest fr [] [] hv (by simpa using hlen)
  simpa using this

/-- Token at the cursor right after a prefix of open frames. -/
theorem getElem?_after_openFrames (fr : List (Nat × Nat)) (rest : List Roll) (i : Nat) :
    (openFrames fr ++ rest)[2 * fr.length + i]? = rest[i]? := by
  rw [List.getElem?_append_right (by rw [length_openFrames]; omega), length_openFrames]
  congr 1
  omega

/-! ## Running the loop over numeric rolls only -/

theorem length_openScores : ∀ (q : List Nat), (openScores q).length = (q.length + 1) / 2
  | [] => rfl
  | [_] => by simp [openScores]
  | a :: b :: rest => by
    simp only [openScores, List.length_cons, length_openScores rest]
    omega

theorem getElem?_openScores : ∀ (q : List Nat) (i : Nat), i < q.length / 2 →
    (openScores q)[i]? = some (some (q.getD (2 * i) 0 + q.getD (2 * i + 1) 0))
  | [], i, h => by simp at h
  | [a], i, h => by
    simp only [List.length_singleton] at h
    omega
  | a :: b :: rest, 0, _ => by simp [openScores]
  | a :: b :: rest, i + 1, h => by
    have h' : i < rest.length / 2 := by
      simp only [List.length_cons] at h
      omega
    have e1 : 2 * (i + 1) = (2 * i) + 1 + 1 := by omega
    have e2 : 2 * (i + 1) + 1 = (2 * i + 1) + 1 + 1 := by omega
    rw [e2, e1]
    simp only [openScores, List.getElem?_cons_succ, List.getD_cons_succ]
    exact getElem?_openScores rest i h'

theorem getLast?_openScores : ∀ (q : List Nat), q.length % 2 = 1 →
    (openScores q).getLast? = some none
  | [], h => by simp at h
  | [_], _ => rfl
  | a :: b :: rest, h => by
    have h' : rest.length % 2 = 1 := by
      simp only [List.length_cons] at h
      omega
    have ih := getLast?_openScores rest h'
    have hne : openScores rest ≠ [] := by
      intro hnil
      rw [hnil] at ih
      cases ih
    obtain ⟨x, xs, hx⟩ := List.exists_cons_of_ne_nil hne
    simp only [openScores]
    rw [hx] at ih ⊢
    rw [List.getLast?_cons_cons]
    exact ih

/-- On numeric rolls only, whose frames (as far as the loop scores them) each sum
to at most 9, the loop returns, having appended the frame by frame reading of
the rolls, cut off at the tenth frame. -/
theorem whileLoop_open : ∀ (q : List Nat) (pre : List Roll) (sc : List (Option Nat)),
    sc.length ≤ 10 →
    (∀ i, i < 10 - sc.length → 2 * i + 1 < q.length →
      q.getD (2 * i) 0 + q.getD (2 * i + 1) 0 ≤ 9) →
    ∃ s', whileLoop (pre ++ q.map Pins)
        { scoresByFrame := sc, currentFrameScore := 0, roll := pre.length } = .ok s' ∧
      s'.scoresByFrame = sc ++ (openScores q).take (10 - sc.length)
  | [], pre, sc, _, _ => by
    refine ⟨_, whileLoop_done _ _ (by simp), ?_⟩
    simp [openScores]
  | [a], pre, sc, hsc, _ => by
    by_cases h10 : sc.length < 10
    · have hx : (pre ++ [a].map Pins)[pre.length + 0]? = some (Pins a) := by
        rw [getElem?_append_add]; simp
      obtain ⟨h, hx⟩ := List.getElem?_eq_some.1 hx
      refine ⟨{ scoresByFrame := sc ++ [none], currentFrameScore := 0,
                roll := pre.length + 1 }, ?_, ?_⟩
      · rw [whileLoop_step _ _ _ h h10 (loopBody_lone _ _ h a hx (by simp))]
        exact whileLoop_done _ _ (by simp)
      · obtain ⟨k, hk⟩ : ∃ k, 10 - sc.length = k + 1 := ⟨9 - sc.length, by omega⟩
        simp [openScores, hk]
    · refine ⟨_, whileLoop_done _ _ (by simp only []; omega), ?_⟩
      simp [show 10 - sc.length = 0 by omega]
  | a :: b :: rest, pre, sc, hsc, hv => by
    by_cases h10 : sc.length < 10
    · have hx : (pre ++ (a :: b :: rest).map Pins)[pre.length + 0]? = some (Pins a) := by
        rw [getElem?_append_add]; simp
      have hy : (pre ++ (a :: b :: rest).map Pins)[pre.length + 1]? = some (Pins b) := by
        rw [getElem?_append_add]; simp
      have hab : a + b ≤ 9 := by
        have := hv 0 (by omega) (by simp)
        simpa using this
      have hrolls : pre ++ (a :: b :: rest).map Pins =
          (pre ++ [Pins a, Pins b]) ++ rest.map Pins := by simp
      obtain ⟨s', hs', hsc'⟩ := whileLoop_open rest (pre ++ [Pins a, Pins b])
        (sc ++ [some (a + b)])
        (by simp only [List.length_append, List.length_singleton]; omega)
        (by
          intro i hi hlen
          simp only [List.length_append, List.length_singleton] at hi
          have := hv (i + 1) (by omega) (by simp only [List.length_cons]; omega)
          have e1 : 2 * (i + 1) = (2 * i) + 1 + 1 := by omega
          have e2 : 2 * (i + 1) + 1 = (2 * i + 1) + 1 + 1 := by omega
          rw [e2, e1] at this
          simpa only [List.getD_cons_succ] using this)
      refine ⟨s', ?_, ?_⟩
      · rw [whileLoop_open_step _ _ a b h10 rfl hx hy hab, hrolls]
        simp only [List.length_append, List.length_cons, List.length_nil] at hs'
        exact hs'
      · obtain ⟨k, hk⟩ : ∃ k, 10 - sc.length = k + 1 := ⟨9 - sc.length, by omega⟩
        rw [hsc']
        simp only [List.length_append, List.length_singleton]
        rw [hk, show 10 - (sc.length + 1) = k by omega]
        simp [openScores]
    · refine ⟨_, whileLoop_done _ _ (by simp only []; omega), ?_⟩
      simp [show 10 - sc.length = 0 by omega]

/-! ## Running the loop over a run of strikes -/

/-- In a game of `n` strikes, the strike at cursor `r` scores 30 when two more
rolls follow it and is incomplete otherwise. -/
theorem calculateStrikeScore_replicate (n r : Nat) :
    calculateStrikeScore r (List.replicate n Strike) =
      .ok (if r + 2 < n then some 30 else none) := by
  by_cases h : r + 2 < n
  · rw [if_pos h]
    exact calculateStrikeScore_strike_strike r _ (by simpa using h) (by simp) (by simp)
  · rw [if_neg h]
    exact calculateStrikeScore_short r _ (by simpa using by omega)

/-- In a game of `n` strikes the loop, entered at cursor `r` with `r` frames
scored, scores one frame per strike up to the tenth. -/
theorem whileLoop_replicate_strike (n : Nat) :
    ∀ (m r : Nat) (sc : List (Option Nat)), sc.length = r → r + m = min n 10 →
      whileLoop (List.replicate n Strike)
          { scoresByFrame := sc, currentFrameScore := 0, roll := r } =
        .ok { scoresByFrame :=
                sc ++ (List.range' r m).map (fun i => if i + 2 < n then some 30 else none),
              currentFrameScore := 0, roll := r + m } := by
  intro m
  induction m with
  | zero =>
    intro r sc hsc hr
    rw [whileLoop_done _ _ (by simp only [List.length_replicate]; omega)]
    simp
  | succ m ih =>
    intro r sc hsc hr
    have h : r < (List.replicate n Strike).length := by
      simp only [List.length_replicate]; omega
    have hb : loopBody (List.replicate n Strike)
        { scoresByFrame := sc, currentFrameScore := 0, roll := r } h =
        .ok { scoresByFrame := sc ++ [(if r + 2 < n then some 30 else none)],
              currentFrameScore := 0, roll := r + 1 } := by
      rw [loopBody_strike _ _ h (by simp), calculateStrikeScore_replicate]
    rw [whileLoop_step _ _ _ h (by simp only []; omega) hb]
    rw [ih (r + 1) _ (by simp [hsc]) (by omega)]
    simp only [List.range'_succ, List.map_cons, List.append_assoc, List.singleton_append]
    congr 2
    omega

/-! ## Ranges of the lookahead scores -/

/-- Every score returned by `calculateStrikeScore` is between 10 and 30. -/
theorem calculateStrikeScore_range (c : Nat) (rolls : List Roll) (v : Nat)
    (hs : calculateStrikeScore c rolls = .ok (some v)) : 10 ≤ v ∧ v ≤ 30 := by
  by_cases h : c + 2 < rolls.length
  · rcases hx : rolls[c + 1] with a | _ | _
    · rcases hy : rolls[c + 2] with b | _ | _
      · rw [calculateStrikeScore_pins_pins c rolls a b h hx hy] at hs
        by_cases hgt : 10 + a + b > 30
        · rw [if_pos hgt] at hs; cases hs
        · rw [if_neg hgt] at hs; cases hs; omega
      · rw [calculateStrikeScore_pins_spare c rolls a h hx hy] at hs
        by_cases h20 : 10 + a = 20
        · rw [if_pos h20] at hs; cases hs
        · rw [if_neg h20] at hs; cases hs; omega
      · rw [calculateStrikeScore_pins_strike c rolls a h hx hy] at hs
        by_cases h20 : 10 + a ≠ 20
        · rw [if_pos h20] at hs; cases hs
        · rw [if_neg h20] at hs; cases hs; omega
    · rw [calculateStrikeScore_spare c rolls h hx] at hs
      cases hs
    · rcases hy : rolls[c + 2] with b | _ | _
      · rw [calculateStrikeScore_strike_pins c rolls b h hx hy] at hs
        by_cases hgt : 20 + b > 30
        · rw [if_pos hgt] at hs; cases hs
        · rw [if_neg hgt] at hs; cases hs; omega
      · rw [calculateStrikeScore_strike_spare c rolls h hx hy] at hs
        cases hs
      · rw [calculateStrikeScore_strike_strike c rolls h hx hy] at hs
        cases hs; omega
  · rw [calculateStrikeScore_short c rolls (by omega)] at hs
    cases hs

/-- Every score returned by `calculateSpareScore` is between 10 and 20. -/
theorem calculateSpareScore_range (c : Nat) (rolls : List Roll) (v : Nat)
    (hs : calculateSpareScore c rolls = .ok (some v)) : 10 ≤ v ∧ v ≤ 20 := by
  by_cases h : c + 1 < rolls.length
  · rcases hx : rolls[c + 1] with n | _ | _
    · rw [calculateSpareScore_pins c rolls n h hx] at hs
      by_cases hgt : 10 + n > 20
      · rw [if_pos hgt] at hs; cases hs
      · rw [if_neg hgt] at hs; cases hs; omega
    · rw [calculateSpareScore_spare c rolls h hx] at hs
      cases hs
    · rw [calculateSpareScore_strike c rolls h hx] at hs
      cases hs; omega
  · rw [calculateSpareScore_short c rolls (by omega)] at hs
    cases hs

/-! ## The cursor is at a frame start -/

theorem frameWidth_pos (rolls : List Roll) (c : Nat) :
    1 ≤ frameWidth rolls c ∧ frameWidth rolls c ≤ 2 := by
  unfold frameWidth
  split
  · omega
  · split <;> omega

theorem frameStart_bounds (rolls : List Roll) (k : Nat) :
    k ≤ frameStart rolls k ∧ frameStart rolls k ≤ 2 * k := by
  induction k with
  | zero => simp [frameStart]
  | succ k ih =>
    have := frameWidth_pos rolls (frameStart rolls k)
    simp only [frameStart]
    omega

theorem frameStart_mono (rolls : List Roll) (k m : Nat) (h : k ≤ m) :
    frameStart rolls k ≤ frameStart rolls m := by
  induction m with
  | zero =>
    have : k = 0 := by omega
    rw [this]
  | succ m ih =>
    by_cases hk : k = m + 1
    · rw [hk]
    · have := ih (by omega)
      simp only [frameStart]
      omega

/-- A successful pass through the loop body moves the cursor by the width of
the frame at the cursor. -/
theorem loopBody_roll (rolls : List Roll) (s s' : LoopState) (h : s.roll < rolls.length)
    (hb : loopBody rolls s h = .ok s') :
    s'.roll = s.roll + frameWidth rolls s.roll := by
  have e0 : rolls[s.roll]? = some rolls[s.roll] := List.getElem?_eq_getElem h
  rcases loopBody_ok_cases rolls s s' h hb with
    ⟨hx, score, _, rfl⟩ | ⟨a, hx, hl, rfl⟩ | ⟨a, hx, h1, _, score, _, rfl⟩ |
    ⟨a, b, hx, h1, _, _, rfl⟩
  · simp [frameWidth, e0, hx]
  · simp [frameWidth, e0, hx, hl]
  · simp [frameWidth, e0, hx, show ¬ rolls.length ≤ s.roll + 1 by omega]
  · simp [frameWidth, e0, hx, show ¬ rolls.length ≤ s.roll + 1 by omega]

theorem atFrameStart_init (rolls : List Roll) :
    atFrameStart rolls { scoresByFrame := [], currentFrameScore := 0, roll := 0 } := by
  simp [atFrameStart, frameStart]

theorem loopBody_atFrameStart (rolls : List Roll) (s s' : LoopState)
    (h : s.roll < rolls.length) (h10 : s.scoresByFrame.length < 10)
    (hP : atFrameStart rolls s) (hb : loopBody rolls s h = .ok s') :
    atFrameStart rolls s' := by
  obtain ⟨hcur, hroll, _, _⟩ := hP
  have hr := loopBody_roll rolls s s' h hb
  obtain ⟨⟨score, hsc⟩, _, hle⟩ := loopBody_advance rolls s s' h hb
  refine ⟨?_, ?_, hle, ?_⟩
  · rcases loopBody_ok_cases rolls s s' h hb with
      ⟨_, _, _, rfl⟩ | ⟨_, _, _, rfl⟩ | ⟨_, _, _, _, _, _, rfl⟩ | ⟨_, _, _, _, _, _, rfl⟩
    · rfl
    · exact hcur
    · rfl
    · rfl
  · rw [hr, hsc, List.length_append, List.length_singleton, frameStart, ← hroll]
  · rw [hsc, List.length_append, List.length_singleton]
    omega

/-- A successful pass through the loop body from a frame start appends a
result that, when concrete, lies in the range of the frame's category. -/
theorem loopBody_frameScoreInRange (rolls : List Roll) (s s' : LoopState)
    (h : s.roll < rolls.length) (hP : atFrameStart rolls s)
    (hQ : ∀ k v, s.scoresByFrame[k]? = some (some v) → frameScoreInRange rolls k v)
    (hb : loopBody rolls s h = .ok s') :
    ∀ k v, s'.scoresByFrame[k]? = some (some v) → frameScoreInRange rolls k v := by
  obtain ⟨hcur, hroll, _, _⟩ := hP
  have e0 : rolls[s.roll]? = some rolls[s.roll] := List.getElem?_eq_getElem h
  have key : ∀ score, s'.scoresByFrame = s.scoresByFrame ++ [score] →
      (∀ v, score = some v → frameScoreInRange rolls s.scoresByFrame.length v) →
      ∀ k v, s'.scoresByFrame[k]? = some (some v) → frameScoreInRange rolls k v := by
    intro score hsc hnew k v hk
    rw [hsc] at hk
    by_cases hlt : k < s.scoresByFrame.length
    · rw [List.getElem?_append_left hlt] at hk
      exact hQ k v hk
    · rw [List.getElem?_append_right (by omega)] at hk
      by_cases heq : k = s.scoresByFrame.length
      · subst heq
        simp only [Nat.sub_self, List.getElem?_cons_zero, Option.some.injEq] at hk
        exact hnew v hk
      · obtain ⟨d, hd⟩ : ∃ d, k - s.scoresByFrame.length = d + 1 :=
          ⟨k - s.scoresByFrame.length - 1, by omega⟩
        rw [hd] at hk
        simp at hk
  rcases loopBody_ok_cases rolls s s' h hb with
    ⟨hx, score, hst, rfl⟩ | ⟨a, hx, hl, rfl⟩ | ⟨a, hx, h1, hy, score, hsp, rfl⟩ |
    ⟨a, b, hx, h1, hy, hsum, rfl⟩
  · refine key score rfl ?_
    intro v hv
    subst hv
    have := calculateStrikeScore_range s.roll rolls v hst
    exact Or.inl ⟨by rw [← hroll, e0, hx], this.1, this.2⟩
  · refine key none rfl ?_
    intro v hv
    cases hv
  · refine key score rfl ?_
    intro v hv
    subst hv
    have := calculateSpareScore_range (s.roll + 1) rolls v hsp
    have e1 : rolls[s.roll + 1]? = some rolls[s.roll + 1] := List.getElem?_eq_getElem h1
    exact Or.inr (Or.inl ⟨a, by rw [← hroll, e0, hx], by rw [← hroll, e1, hy],
      this.1, this.2⟩)
  · refine key _ rfl ?_
    intro v hv
    cases hv
    have e1 : rolls[s.roll + 1]? = some rolls[s.roll + 1] := List.getElem?_eq_getElem h1
    exact Or.inr (Or.inr ⟨a, b, by rw [← hroll, e0, hx], by rw [← hroll, e1, hy],
      by omega, by omega⟩)

/-! ## Two adjacent spares inside the first ten frames -/

/-- With spares at `j` and `j + 1` and the cursor at or before `j`, a pass
through the loop body that does not throw leaves the cursor at or before `j`. -/
theorem loopBody_before_spares (rolls : List Roll) (j : Nat)
    (h1 : rolls[j]? = some Spare) (h2 : rolls[j + 1]? = some Spare)
    (s s' : LoopState) (h : s.roll < rolls.length) (hj : s.roll ≤ j)
    (hb : loopBody rolls s h = .ok s') : s'.roll ≤ j := by
  obtain ⟨hjl, hj1⟩ := List.getElem?_eq_some.1 h1
  obtain ⟨hjl2, hj2⟩ := List.getElem?_eq_some.1 h2
  rcases loopBody_ok_cases rolls s s' h hb with
    ⟨hx, score, hst, rfl⟩ | ⟨a, hx, hl, rfl⟩ | ⟨a, hx, hlt, hy, score, hsp, rfl⟩ |
    ⟨a, b, hx, hlt, hy, hsum, rfl⟩
  · have hne : s.roll ≠ j := by
      intro heq
      subst heq
      rw [hx] at hj1
      cases hj1
    show s.roll + 1 ≤ j
    omega
  · omega
  · have hne : s.roll ≠ j := by
      intro heq
      subst heq
      rw [hx] at hj1
      cases hj1
    have hne1 : s.roll + 1 ≠ j := by
      intro heq
      subst heq
      rw [calculateSpareScore_spare (s.roll + 1) rolls hjl2 hj2] at hsp
      cases hsp
    show s.roll + 2 ≤ j
    omega
  · have hne : s.roll ≠ j := by
      intro heq
      subst heq
      rw [hx] at hj1
      cases hj1
    have hne1 : s.roll + 1 ≠ j := by
      intro heq
      subst heq
      rw [hy] at hj1
      cases hj1
    show s.roll + 2 ≤ j
    omega

/-- With spares at `j` and `j + 1`, `j` among the tokens of the first ten
frames, the loop started at a frame start at or before `j` throws. -/
theorem whileLoop_adjacent_spares (rolls : List Roll) (j : Nat)
    (h1 : rolls[j]? = some Spare) (h2 : rolls[j + 1]? = some Spare)
    (hj10 : j < frameStart rolls 10) :
    ∀ (m : Nat) (s : LoopState), j - s.roll ≤ m → atFrameStart rolls s → s.roll ≤ j →
      ∃ e, whileLoop rolls s = .error e := by
  obtain ⟨hjl, _⟩ := List.getElem?_eq_some.1 h1
  have guard : ∀ s : LoopState, atFrameStart rolls s → s.roll ≤ j →
      s.roll < rolls.length ∧ s.scoresByFrame.length < 10 := by
    intro s hP hj
    refine ⟨by omega, ?_⟩
    by_contra hge
    have := frameStart_mono rolls 10 s.scoresByFrame.length (by omega)
    have := hP.2.1
    omega
  intro m
  induction m with
  | zero =>
    intro s hm hP hj
    obtain ⟨h, h10⟩ := guard s hP hj
    rcases hb : loopBody rolls s h with e | t
    · exact ⟨e, whileLoop_error rolls s e h h10 hb⟩
    · have := loopBody_before_spares rolls j h1 h2 s t h hj hb
      have := loopBody_advance rolls s t h hb
      omega
  | succ m ih =>
    intro s hm hP hj
    obtain ⟨h, h10⟩ := guard s hP hj
    rcases hb : loopBody rolls s h with e | t
    · exact ⟨e, whileLoop_error rolls s e h h10 hb⟩
    · have hle := loopBody_before_spares rolls j h1 h2 s t h hj hb
      have hadv := loopBody_advance rolls s t h hb
      rw [whileLoop_step rolls s t h h10 hb]
      exact ih t (by omega) (loopBody_atFrameStart rolls s t h h10 hP hb) hle

/-- A successful call is a run of the loop from the initial state. -/
theorem caclulateFrameScores_ok (rolls : List Roll) (fs : List (Option Nat))
    (h : caclulateFrameScores rolls = .ok fs) :
    ∃ s', whileLoop rolls { scoresByFrame := [], currentFrameScore := 0, roll := 0 } = .ok s' ∧
      s'.scoresByFrame = fs := by
  unfold caclulateFrameScores at h
  rcases hw : whileLoop rolls { scoresByFrame := [], currentFrameScore := 0, roll := 0 }
    with e | s'
  · rw [hw] at h
    cases h
  · rw [hw] at h
    cases h
    exact ⟨s', rfl, rfl⟩

/-! ## Strike and spare lookahead -/

/-- C3: on a roll sequence whose pin counts are all at most 9, with a strike at
the cursor `c`, every score returned by `calculateStrikeScore c rolls` is 10 plus
the pins knocked down by the next two rolls. Instance: eleven strikes followed by
`Pins 9` score 30 in the first nine frames and 29 in the tenth. -/
theorem calculateStrikeScore_eq_ten_plus_next_two :
    (∀ (rolls : List Roll) (c s : Nat),
      (∀ r ∈ rolls, ∀ n, r = Pins n → n ≤ 9) →
      rolls[c]? = some Strike →
      calculateStrikeScore c rolls = .ok (some s) →
      s = 10 + pinsKnockedDown rolls (c + 1) + pinsKnockedDown rolls (c + 2)) ∧
    caclulateFrameScores (List.replicate 11 Strike ++ [Pins 9]) =
      .ok (List.replicate 9 (some 30) ++ [some 29]) := by
  refine ⟨?_, by decide⟩
  intro rolls c s hp _ hs
  by_cases h : c + 2 < rolls.length
  · have e1 : rolls[c + 1]? = some rolls[c + 1] := List.getElem?_eq_getElem (by omega)
    have e2 : rolls[c + 2]? = some rolls[c + 2] := List.getElem?_eq_getElem (by omega)
    have m1 : rolls[c + 1] ∈ rolls := List.getElem_mem (by omega)
    have m2 : rolls[c + 2] ∈ rolls := List.getElem_mem (by omega)
    rcases hx : rolls[c + 1] with a | _ | _
    · have ha : a ≤ 9 := hp _ m1 a hx
      rcases hy : rolls[c + 2] with b | _ | _
      · have hb : b ≤ 9 := hp _ m2 b hy
        rw [calculateStrikeScore_pins_pins c rolls a b h hx hy,
          if_neg (by omega)] at hs
        cases hs
        simp [pinsKnockedDown, e1, e2, hx, hy]
      · rw [calculateStrikeScore_pins_spare c rolls a h hx hy,
          if_neg (by omega)] at hs
        cases hs
        simp [pinsKnockedDown, e1, e2, hx, hy]
        omega
      · rw [calculateStrikeScore_pins_strike c rolls a h hx hy,
          if_pos (by omega)] at hs
        cases hs
    · rw [calculateStrikeScore_spare c rolls h hx] at hs
      cases hs
    · rcases hy : rolls[c + 2] with b | _ | _
      · have hb : b ≤ 9 := hp _ m2 b hy
        rw [calculateStrikeScore_strike_pins c rolls b h hx hy,
          if_neg (by omega)] at hs
        cases hs
        simp [pinsKnockedDown, e1, e2, hx, hy]
      · rw [calculateStrikeScore_strike_spare c rolls h hx hy] at hs
        cases hs
      · rw [calculateStrikeScore_strike_strike c rolls h hx hy] at hs
        cases hs
        simp [pinsKnockedDown, e1, e2, hx, hy]
  · rw [calculateStrikeScore_short c rolls (by omega)] at hs
    cases hs

/-- Witness for C3: the strike opening the tenth frame of eleven strikes followed
by `Pins 9` returns 29, which is 10 plus the next two rolls. -/
theorem calculateStrikeScore_eq_ten_plus_next_two_witness :
    calculateStrikeScore 9 (List.replicate 11 Strike ++ [Pins 9]) = .ok (some 29) ∧
    29 = 10 + pinsKnockedDown (List.replicate 11 Strike ++ [Pins 9]) 10
          + pinsKnockedDown (List.replicate 11 Strike ++ [Pins 9]) 11 :=
  ⟨by decide,
   calculateStrikeScore_eq_ten_plus_next_two.1 (List.replicate 11 Strike ++ [Pins 9]) 9 29
     (by intro r hr n hn; subst hn; simp at hr; omega) (by decide) (by decide)⟩

/-- C4: with a spare at the cursor `c`, `calculateSpareScore c rolls` is decided
by the token at `c + 1`: incomplete exactly when there is none, `spareErrorMsg`
exactly when it is a spare, 20 when it is a strike, and for `Pins n` the score
`10 + n` when that is at most 20 and `scoreErrorMsg` otherwise; every returned
score lies between 10 and 20. -/
theorem calculateSpareScore_by_next_token (rolls : List Roll) (c : Nat)
    (_hc : rolls[c]? = some Spare) :
    (calculateSpareScore c rolls = .ok none ↔ rolls[c + 1]? = none) ∧
    (calculateSpareScore c rolls = .error spareErrorMsg ↔ rolls[c + 1]? = some Spare) ∧
    (rolls[c + 1]? = some Strike → calculateSpareScore c rolls = .ok (some 20)) ∧
    (∀ n, rolls[c + 1]? = some (Pins n) →
      (10 + n ≤ 20 → calculateSpareScore c rolls = .ok (some (10 + n))) ∧
      (10 + n > 20 → calculateSpareScore c rolls = .error scoreErrorMsg)) ∧
    (∀ v, calculateSpareScore c rolls = .ok (some v) → 10 ≤ v ∧ v ≤ 20) := by
  by_cases h : c + 1 < rolls.length
  · have e1 : rolls[c + 1]? = some rolls[c + 1] := List.getElem?_eq_getElem h
    rcases hx : rolls[c + 1] with n | _ | _
    · rw [e1, hx, calculateSpareScore_pins c rolls n h hx]
      by_cases hn : 10 + n > 20
      · simp [hn]
      · simp [hn]
        omega
    · rw [e1, hx, calculateSpareScore_spare c rolls h hx]
      simp
    · rw [e1, hx, calculateSpareScore_strike c rolls h hx]
      simp
  · have e1 : rolls[c + 1]? = none := List.getElem?_eq_none (by omega)
    rw [e1, calculateSpareScore_short c rolls (by omega)]
    simp

/-- Witness for C4: a spare followed by a pin count of 11 is rejected with
`scoreErrorMsg`. -/
theorem calculateSpareScore_by_next_token_witness :
    calculateSpareScore 1 [Pins 3, Spare, Pins 11] = .error scoreErrorMsg :=
  ((calculateSpareScore_by_next_token [Pins 3, Spare, Pins 11] 1 (by decide)).2.2.2.1 11
    (by decide)).2 (by decide)

/-! ## Misplaced tokens and oversized open frames -/

/-- C7: after a prefix of at most nine valid open frames, a spare as the first
token of the next frame makes `caclulateFrameScores` fail with `spareErrorMsg`;
in particular every roll sequence whose first token is a spare fails so. -/
theorem caclulateFrameScores_spare_first (fr : List (Nat × Nat)) (t : List Roll)
    (hk : fr.length ≤ 9) (hv : ∀ p ∈ fr, p.1 + p.2 ≤ 9) :
    caclulateFrameScores (openFrames fr ++ [Spare] ++ t) = .error spareErrorMsg ∧
    caclulateFrameScores (Spare :: t) = .error spareErrorMsg := by
  have main : ∀ (fr : List (Nat × Nat)), fr.length ≤ 9 → (∀ p ∈ fr, p.1 + p.2 ≤ 9) →
      caclulateFrameScores (openFrames fr ++ [Spare] ++ t) = .error spareErrorMsg := by
    intro fr hk hv
    have hx : (openFrames fr ++ ([Spare] ++ t))[2 * fr.length + 0]? = some Spare := by
      rw [getElem?_after_openFrames]; simp
    obtain ⟨h, hx⟩ := List.getElem?_eq_some.1 hx
    unfold caclulateFrameScores
    rw [List.append_assoc, whileLoop_openFrames_init fr _ hv (by omega),
      whileLoop_error _ _ spareErrorMsg h (by simpa using by omega)
        (loopBody_spare _ _ h hx)]
  exact ⟨main fr hk hv, by simpa [openFrames] using main [] (by simp) (by simp)⟩

/-- Witness for C7: one open frame, then a spare opening the second frame. -/
theorem caclulateFrameScores_spare_first_witness :
    caclulateFrameScores (openFrames [(1, 2)] ++ [Spare] ++ [Pins 4]) = .error spareErrorMsg ∧
    caclulateFrameScores (Spare :: [Pins 4]) = .error spareErrorMsg :=
  caclulateFrameScores_spare_first [(1, 2)] [Pins 4] (by decide) (by decide)

/-- C8: after a prefix of at most nine valid open frames, a strike as the second
token of the next frame makes `caclulateFrameScores` fail with `strikeErrorMsg`. -/
theorem caclulateFrameScores_strike_second (fr : List (Nat × Nat)) (a : Nat) (t : List Roll)
    (hk : fr.length ≤ 9) (hv : ∀ p ∈ fr, p.1 + p.2 ≤ 9) :
    caclulateFrameScores (openFrames fr ++ [Pins a, Strike] ++ t) = .error strikeErrorMsg := by
  have hx : (openFrames fr ++ ([Pins a, Strike] ++ t))[2 * fr.length + 0]? = some (Pins a) := by
    rw [getElem?_after_openFrames]; simp
  have hy : (openFrames fr ++ ([Pins a, Strike] ++ t))[2 * fr.length + 1]? = some Strike := by
    rw [getElem?_after_openFrames]; simp
  obtain ⟨h, hx⟩ := List.getElem?_eq_some.1 hx
  obtain ⟨h1, hy⟩ := List.getElem?_eq_some.1 hy
  unfold caclulateFrameScores
  rw [List.append_assoc, whileLoop_openFrames_init fr _ hv (by omega),
    whileLoop_error _ _ strikeErrorMsg h (by simpa using by omega)
      (loopBody_pins_strike _ _ h a hx h1 hy)]

/-- Witness for C8: the game `1 X`. -/
theorem caclulateFrameScores_strike_second_witness :
    caclulateFrameScores (openFrames [] ++ [Pins 1, Strike] ++ []) = .error strikeErrorMsg :=
  caclulateFrameScores_strike_second [] 1 [] (by decide) (by decide)

/-- C9: after a prefix of at most nine valid open frames, two numeric rolls
summing to 10 or more make `caclulateFrameScores` fail with `scoreErrorMsg`. -/
theorem caclulateFrameScores_open_too_large (fr : List (Nat × Nat)) (a b : Nat)
    (t : List Roll) (hk : fr.length ≤ 9) (hv : ∀ p ∈ fr, p.1 + p.2 ≤ 9)
    (hab : a + b ≥ 10) :
    caclulateFrameScores (openFrames fr ++ [Pins a, Pins b] ++ t) = .error scoreErrorMsg := by
  have hx : (openFrames fr ++ ([Pins a, Pins b] ++ t))[2 * fr.length + 0]? = some (Pins a) := by
    rw [getElem?_after_openFrames]; simp
  have hy : (openFrames fr ++ ([Pins a, Pins b] ++ t))[2 * fr.length + 1]? = some (Pins b) := by
    rw [getElem?_after_openFrames]; simp
  obtain ⟨h, hx⟩ := List.getElem?_eq_some.1 hx
  obtain ⟨h1, hy⟩ := List.getElem?_eq_some.1 hy
  unfold caclulateFrameScores
  rw [List.append_assoc, whileLoop_openFrames_init fr _ hv (by omega),
    whileLoop_error _ _ scoreErrorMsg h (by simpa using by omega)
      (by rw [loopBody_pins_pins _ _ h a b hx h1 hy, if_pos (by simpa using hab)])]

/-- Witness for C9: the game `9 9`. -/
theorem caclulateFrameScores_open_too_large_witness :
    caclulateFrameScores (openFrames [] ++ [Pins 9, Pins 9] ++ []) = .error scoreErrorMsg :=
  caclulateFrameScores_open_too_large [] 9 9 [] (by decide) (by decide) (by decide)

/-! ## Whole games of one kind of roll -/

/-- C1: on a roll sequence of `n` numeric tokens in which rolls `2i` and `2i+1`
sum to at most 9 for every `i < min 10 (n / 2)`, `caclulateFrameScores` returns
exactly `min 10 ⌈n / 2⌉` frame results, frame `i` being that sum for every such
`i`, and the last frame being incomplete when `n` is odd and below 20. The empty
sequence gives the empty result and a single numeric roll gives one incomplete
frame. -/
theorem caclulateFrameScores_open_game (ps : List Nat)
    (hs : ∀ i, i < min 10 (ps.length / 2) →
      ps.getD (2 * i) 0 + ps.getD (2 * i + 1) 0 ≤ 9) :
    ∃ fs, caclulateFrameScores (ps.map Pins) = .ok fs ∧
      fs.length = min 10 ((ps.length + 1) / 2) ∧
      (∀ i, i < min 10 (ps.length / 2) →
        fs[i]? = some (some (ps.getD (2 * i) 0 + ps.getD (2 * i + 1) 0))) ∧
      (ps.length % 2 = 1 → ps.length < 20 → fs.getLast? = some none) ∧
      (ps = [] → fs = []) ∧
      (∀ a, ps = [a] → fs = [none]) := by
  obtain ⟨s', hs', hsc'⟩ := whileLoop_open ps [] [] (by simp)
    (by
      intro i hi hlen
      exact hs i (by simp only [List.length_nil] at hi; omega))
  simp only [List.nil_append, List.length_nil, Nat.sub_zero] at hs' hsc'
  refine ⟨s'.scoresByFrame, ?_, ?_, ?_, ?_, ?_, ?_⟩
  · unfold caclulateFrameScores
    rw [hs']
  · rw [hsc', List.length_take, length_openScores]
  · intro i hi
    rw [hsc', List.getElem?_take_of_lt (by omega)]
    exact getElem?_openScores ps i (by omega)
  · intro hodd hlt
    rw [hsc', List.take_of_length_le (by rw [length_openScores]; omega)]
    exact getLast?_openScores ps hodd
  · intro hnil
    rw [hsc', hnil]
    rfl
  · intro a ha
    rw [hsc', ha]
    rfl

/-- Witness for C1: the full open game of the test suite scores the ten pairwise
sums. -/
theorem caclulateFrameScores_open_game_witness :
    ∃ fs, caclulateFrameScores
        ([1, 8, 3, 3, 0, 0, 7, 2, 6, 1, 0, 5, 1, 0, 2, 4, 7, 1, 1, 2].map Pins) = .ok fs ∧
      fs.length = 10 ∧ fs[0]? = some (some 9) ∧ fs[9]? = some (some 3) := by
  obtain ⟨fs, h, hlen, hidx, _⟩ := caclulateFrameScores_open_game
    [1, 8, 3, 3, 0, 0, 7, 2, 6, 1, 0, 5, 1, 0, 2, 4, 7, 1, 1, 2] (by decide)
  exact ⟨fs, h, hlen, hidx 0 (by decide), hidx 9 (by decide)⟩

/-- C2: on `n` strikes `caclulateFrameScores` returns `min n 10` frame results,
frame `i` being 30 when `i + 2 < n` and incomplete otherwise; for `n ≥ 12`
these are ten frames of 30. -/
theorem caclulateFrameScores_all_strikes (n : Nat) :
    caclulateFrameScores (List.replicate n Strike) =
      .ok ((List.range (min n 10)).map (fun i => if i + 2 < n then some 30 else none)) ∧
    (12 ≤ n →
      caclulateFrameScores (List.replicate n Strike) = .ok (List.replicate 10 (some 30))) := by
  have main : caclulateFrameScores (List.replicate n Strike) =
      .ok ((List.range (min n 10)).map (fun i => if i + 2 < n then some 30 else none)) := by
    unfold caclulateFrameScores
    rw [whileLoop_replicate_strike n (min n 10) 0 [] rfl (by omega)]
    simp [List.range_eq_range']
  refine ⟨main, fun hn => ?_⟩
  rw [main, show min n 10 = 10 by omega]
  have : (List.range 10).map (fun i => if i + 2 < n then some 30 else none) =
      (List.range 10).map (fun _ => some 30) := by
    apply List.map_congr_left
    intro i hi
    rw [List.mem_range] at hi
    rw [if_pos (by omega)]
  rw [this]
  rfl

/-- Witness for C2: the perfect game of twelve strikes scores ten frames of 30. -/
theorem caclulateFrameScores_all_strikes_witness :
    caclulateFrameScores (List.replicate 12 Strike) = .ok (List.replicate 10 (some 30)) :=
  (caclulateFrameScores_all_strikes 12).2 (by decide)

/-! ## Shape of a successful result -/

/-- C5: when `caclulateFrameScores` succeeds on `n` rolls, it returns at most 10
frame results, and fewer than 10 only when the frames took every token (one for a
strike frame or a lone final roll, two otherwise); hence the number of results
is between `min 10 ⌈n / 2⌉` and `min 10 n`. -/
theorem caclulateFrameScores_length (rolls : List Roll) (fs : List (Option Nat))
    (h : caclulateFrameScores rolls = .ok fs) :
    fs.length ≤ 10 ∧
    (fs.length < 10 → frameStart rolls fs.length = rolls.length) ∧
    min 10 ((rolls.length + 1) / 2) ≤ fs.length ∧
    fs.length ≤ min 10 rolls.length := by
  obtain ⟨s', hw, rfl⟩ := caclulateFrameScores_ok rolls fs h
  obtain ⟨⟨_, hroll, hle, h10⟩, hg⟩ :=
    whileLoop_invariant rolls (atFrameStart rolls)
      (fun s t hs hlt hP hb => loopBody_atFrameStart rolls s t hs hlt hP hb)
      rolls.length _ s' (by simp) (atFrameStart_init rolls) hw
  have hb := frameStart_bounds rolls s'.scoresByFrame.length
  refine ⟨h10, ?_, ?_, ?_⟩
  · intro hlt
    omega
  · omega
  · omega

/-- Witness for C5: `1 2 X 3` gives three frame results from four rolls. -/
theorem caclulateFrameScores_length_witness :
    [some 3, none, none].length ≤ 10 ∧
    ([some 3, (none : Option Nat), none].length < 10 →
      frameStart [Pins 1, Pins 2, Strike, Pins 3] [some 3, (none : Option Nat), none].length
        = [Pins 1, Pins 2, Strike, Pins 3].length) ∧
    min 10 (([Pins 1, Pins 2, Strike, Pins 3].length + 1) / 2)
      ≤ [some 3, (none : Option Nat), none].length ∧
    [some 3, (none : Option Nat), none].length
      ≤ min 10 [Pins 1, Pins 2, Strike, Pins 3].length :=
  caclulateFrameScores_length [Pins 1, Pins 2, Strike, Pins 3] [some 3, none, none]
    (by decide)

/-- C6: when `caclulateFrameScores` succeeds, every concrete frame score lies in
the range of its frame's category, read off the tokens at the frame's start:
10 to 30 for a strike frame, 10 to 20 for a spare frame, 0 to 9 for an open
frame of two numeric rolls; hence every concrete score is between 0 and 30. -/
theorem caclulateFrameScores_score_ranges (rolls : List Roll) (fs : List (Option Nat))
    (h : caclulateFrameScores rolls = .ok fs) (k v : Nat) (hk : fs[k]? = some (some v)) :
    ((rolls[frameStart rolls k]? = some Strike ∧ 10 ≤ v ∧ v ≤ 30) ∨
     (∃ a, rolls[frameStart rolls k]? = some (Pins a) ∧
        rolls[frameStart rolls k + 1]? = some Spare ∧ 10 ≤ v ∧ v ≤ 20) ∨
     (∃ a b, rolls[frameStart rolls k]? = some (Pins a) ∧
        rolls[frameStart rolls k + 1]? = some (Pins b) ∧ v = a + b ∧ 0 ≤ v ∧ v ≤ 9)) ∧
    0 ≤ v ∧ v ≤ 30 := by
  obtain ⟨s', hw, rfl⟩ := caclulateFrameScores_ok rolls fs h
  obtain ⟨⟨_, hQ⟩, _⟩ :=
    whileLoop_invariant rolls
      (fun s => atFrameStart rolls s ∧
        ∀ k v, s.scoresByFrame[k]? = some (some v) → frameScoreInRange rolls k v)
      (fun s t hs hlt hP hb =>
        ⟨loopBody_atFrameStart rolls s t hs hlt hP.1 hb,
         loopBody_frameScoreInRange rolls s t hs hP.1 hP.2 hb⟩)
      rolls.length _ s' (by simp)
      ⟨atFrameStart_init rolls, by intro k v hkv; simp at hkv⟩ hw
  have hc := hQ k v hk
  unfold frameScoreInRange at hc
  rcases hc with ⟨hx, h1, h2⟩ | ⟨a, hx, hy, h1, h2⟩ | ⟨a, b, hx, hy, h1, h2⟩
  · exact ⟨Or.inl ⟨hx, h1, h2⟩, by omega, by omega⟩
  · exact ⟨Or.inr (Or.inl ⟨a, hx, hy, h1, h2⟩), by omega, by omega⟩
  · exact ⟨Or.inr (Or.inr ⟨a, b, hx, hy, h1, by omega, h2⟩), by omega, by omega⟩

/-- Witness for C6: in `1 / 5 3` the first frame is a spare frame scoring 15. -/
theorem caclulateFrameScores_score_ranges_witness :
    caclulateFrameScores [Pins 1, Spare, Pins 5, Pins 3] = .ok [some 15, some 8] ∧
    (([Pins 1, Spare, Pins 5, Pins 3][frameStart [Pins 1, Spare, Pins 5, Pins 3] 0]?
          = some Strike ∧ 10 ≤ 15 ∧ 15 ≤ 30) ∨
     (∃ a, [Pins 1, Spare, Pins 5, Pins 3][frameStart [Pins 1, Spare, Pins 5, Pins 3] 0]?
          = some (Pins a) ∧
        [Pins 1, Spare, Pins 5, Pins 3][frameStart [Pins 1, Spare, Pins 5, Pins 3] 0 + 1]?
          = some Spare ∧ 10 ≤ 15 ∧ 15 ≤ 20) ∨
     (∃ a b, [Pins 1, Spare, Pins 5, Pins 3][frameStart [Pins 1, Spare, Pins 5, Pins 3] 0]?
          = some (Pins a) ∧
        [Pins 1, Spare, Pins 5, Pins 3][frameStart [Pins 1, Spare, Pins 5, Pins 3] 0 + 1]?
          = some (Pins b) ∧ 15 = a + b ∧ 0 ≤ 15 ∧ 15 ≤ 9)) ∧
    0 ≤ 15 ∧ 15 ≤ 30 :=
  ⟨by decide,
   caclulateFrameScores_score_ranges [Pins 1, Spare, Pins 5, Pins 3] [some 15, some 8]
     (by decide) 0 15 (by decide)⟩

/-! ## Consecutive spares -/

/-- C10 as stated fails: after twenty numeric rolls the ten frames are scored
and the two adjacent spares at indices 20 and 21 are never examined. -/
theorem caclulateFrameScores_adjacent_spares_unexamined :
    (List.replicate 20 (Pins 0) ++ [Spare, Spare])[20]? = some Spare ∧
    (List.replicate 20 (Pins 0) ++ [Spare, Spare])[21]? = some Spare ∧
    caclulateFrameScores (List.replicate 20 (Pins 0) ++ [Spare, Spare]) =
      .ok (List.replicate 10 (some 0)) := by
  decide

/-- C10, amended: a roll sequence with spares at two adjacent indices `j` and
`j + 1`, where `j` is among the tokens taken by the first ten frames
(`j < frameStart rolls 10`), makes `caclulateFrameScores` fail with a validation
error. -/
theorem caclulateFrameScores_adjacent_spares (rolls : List Roll) (j : Nat)
    (h1 : rolls[j]? = some Spare) (h2 : rolls[j + 1]? = some Spare)
    (hj : j < frameStart rolls 10) :
    ∃ e, caclulateFrameScores rolls = .error e := by
  obtain ⟨e, he⟩ := whileLoop_adjacent_spares rolls j h1 h2 hj j
    { scoresByFrame := [], currentFrameScore := 0, roll := 0 } (by simp)
    (atFrameStart_init rolls) (Nat.zero_le j)
  refine ⟨e, ?_⟩
  unfold caclulateFrameScores
  rw [he]

/-- Witness for amended C10: the game `3 / /`. -/
theorem caclulateFrameScores_adjacent_spares_witness :
    ∃ e, caclulateFrameScores [Pins 3, Spare, Spare] = .error e :=
  caclulateFrameScores_adjacent_spares [Pins 3, Spare, Spare] 1 (by decide) (by decide)
    (by decide)

/-! ## A third strike, short lookahead and the tenth frame -/

/-- C11, at the input where the code departs from it: with a strike at 0 and at
2 and the numeric token of pin count 10 at 1, the running score after the first
lookahead token is 20 although that token is no strike, and
`calculateStrikeScore` returns 30 where the claim, and the source comment "the
only way the second value can be a strike is if the first one was too", require
`strikeErrorMsg`. The 30 reaches callers as a tenth frame score, while the frame
loop itself rejects the same numeric token followed by a strike. -/
theorem calculateStrikeScore_ten_then_strike :
    [Strike, Pins 10, Strike][0]? = some Strike ∧
    [Strike, Pins 10, Strike][1]? = some (Pins 10) ∧
    [Strike, Pins 10, Strike][2]? = some Strike ∧
    calculateStrikeScore 0 [Strike, Pins 10, Strike] = .ok (some 30) ∧
    caclulateFrameScores (List.replicate 18 (Pins 0) ++ [Strike, Pins 10, Strike]) =
      .ok (List.replicate 9 (some 0) ++ [some 30]) ∧
    caclulateFrameScores [Strike, Pins 10, Strike] = .error strikeErrorMsg ∧
    caclulateFrameScores [Pins 10, Strike] = .error strikeErrorMsg := by
  decide

/-- Third strike rule for every other token: with a strike at `c` and at `c + 2`,
and the token at `c + 1` not a numeric token of pin count 10,
`calculateStrikeScore c rolls` returns 30 exactly when the token at `c + 1` is a
strike, fails with `spareErrorMsg` when it is a spare, and fails with
`strikeErrorMsg` when it is numeric. -/
theorem calculateStrikeScore_third_strike (rolls : List Roll) (c : Nat)
    (_hc : rolls[c]? = some Strike) (h2 : rolls[c + 2]? = some Strike)
    (hne : rolls[c + 1]? ≠ some (Pins 10)) :
    (calculateStrikeScore c rolls = .ok (some 30) ↔ rolls[c + 1]? = some Strike) ∧
    (rolls[c + 1]? = some Spare → calculateStrikeScore c rolls = .error spareErrorMsg) ∧
    (∀ a, rolls[c + 1]? = some (Pins a) →
      calculateStrikeScore c rolls = .error strikeErrorMsg) := by
  obtain ⟨h, hy⟩ := List.getElem?_eq_some.1 h2
  have e1 : rolls[c + 1]? = some rolls[c + 1] := List.getElem?_eq_getElem (by omega)
  rcases hx : rolls[c + 1] with a | _ | _
  · have ha : a ≠ 10 := by
      intro h10
      apply hne
      rw [e1, hx, h10]
    rw [e1, hx, calculateStrikeScore_pins_strike c rolls a h hx hy, if_pos (by omega)]
    simp
  · rw [e1, hx, calculateStrikeScore_spare c rolls h hx]
    simp
  · rw [e1, hx, calculateStrikeScore_strike_strike c rolls h hx hy]
    simp

/-- Instance of the third strike rule: in `X 5 X` the strike at 0 fails with
`strikeErrorMsg`. -/
theorem calculateStrikeScore_third_strike_witness :
    calculateStrikeScore 0 [Strike, Pins 5, Strike] = .error strikeErrorMsg :=
  (calculateStrikeScore_third_strike [Strike, Pins 5, Strike] 0 (by decide) (by decide)
    (by decide)).2.2 5 (by decide)

/-- C12: after at most eight valid open frames, a strike followed by one numeric
roll gives the sums of the open frames followed by exactly two incomplete
results; and `calculateStrikeScore` is incomplete whenever fewer than two tokens
follow the strike, whatever they are, even a spare. -/
theorem caclulateFrameScores_trailing_strike (fr : List (Nat × Nat)) (n : Nat)
    (hk : fr.length ≤ 8) (hv : ∀ p ∈ fr, p.1 + p.2 ≤ 9) :
    caclulateFrameScores (openFrames fr ++ [Strike, Pins n]) =
      .ok (fr.map (fun p => some (p.1 + p.2)) ++ [none, none]) ∧
    (∀ (rolls : List Roll) (c : Nat), rolls.length ≤ c + 2 →
      calculateStrikeScore c rolls = .ok none) ∧
    calculateStrikeScore 0 [Strike, Spare] = .ok none := by
  refine ⟨?_, fun rolls c hc => calculateStrikeScore_short c rolls hc, by decide⟩
  have hlen : (openFrames fr ++ [Strike, Pins n]).length = 2 * fr.length + 2 := by
    rw [List.length_append, length_openFrames]
    rfl
  have hx : (openFrames fr ++ [Strike, Pins n])[2 * fr.length + 0]? = some Strike := by
    rw [getElem?_after_openFrames]; simp
  have hy : (openFrames fr ++ [Strike, Pins n])[2 * fr.length + 1]? = some (Pins n) := by
    rw [getElem?_after_openFrames]; simp
  obtain ⟨h, hx⟩ := List.getElem?_eq_some.1 hx
  obtain ⟨h1, hy⟩ := List.getElem?_eq_some.1 hy
  have hb1 : loopBody (openFrames fr ++ [Strike, Pins n])
      { scoresByFrame := fr.map (fun p => some (p.1 + p.2)), currentFrameScore := 0,
        roll := 2 * fr.length } h =
      .ok { scoresByFrame := fr.map (fun p => some (p.1 + p.2)) ++ [none],
            currentFrameScore := 0, roll := 2 * fr.length + 1 } := by
    rw [loopBody_strike _ _ h hx, calculateStrikeScore_short _ _ (by simp only []; omega)]
  have hb2 : loopBody (openFrames fr ++ [Strike, Pins n])
      { scoresByFrame := fr.map (fun p => some (p.1 + p.2)) ++ [none],
        currentFrameScore := 0, roll := 2 * fr.length + 1 } h1 =
      .ok { scoresByFrame := (fr.map (fun p => some (p.1 + p.2)) ++ [none]) ++ [none],
            currentFrameScore := 0, roll := 2 * fr.length + 1 + 1 } :=
    loopBody_lone _ _ h1 n hy (by simp only []; omega)
  unfold caclulateFrameScores
  rw [whileLoop_openFrames_init fr _ hv (by omega),
    whileLoop_step _ _ _ h (by simpa using by omega) hb1,
    whileLoop_step _ _ _ h1 (by simpa using by omega) hb2,
    whileLoop_done _ _ (by simp only []; omega)]
  simp

/-- Witness for C12: the game `1 2 X 3`. -/
theorem caclulateFrameScores_trailing_strike_witness :
    caclulateFrameScores (openFrames [(1, 2)] ++ [Strike, Pins 3]) =
      .ok ([(1, 2)].map (fun p => some (p.1 + p.2)) ++ [none, none]) :=
  (caclulateFrameScores_trailing_strike [(1, 2)] 3 (by decide) (by decide)).1

/-- C13: ten strikes followed by `Pins a`, `a ≤ 9`, and a spare give exactly ten
frames: eight of 30, then `20 + a`, then 20. -/
theorem caclulateFrameScores_ten_strikes_then_spare (a : Nat) (ha : a ≤ 9) :
    caclulateFrameScores (List.replicate 10 Strike ++ [Pins a, Spare]) =
      .ok (List.replicate 8 (some 30) ++ [some (20 + a), some 20]) := by
  interval_cases a <;> decide

/-- Witness for C13: the test game ending in `9 /`. -/
theorem caclulateFrameScores_ten_strikes_then_spare_witness :
    caclulateFrameScores (List.replicate 10 Strike ++ [Pins 9, Spare]) =
      .ok (List.replicate 8 (some 30) ++ [some (20 + 9), some 20]) :=
  caclulateFrameScores_ten_strikes_then_spare 9 (by decide)

/-! ## Termination and the number of iterations -/

theorem whileLoopIterations_done (rolls : List Roll) (s : LoopState)
    (h : ¬ (s.roll < rolls.length ∧ s.scoresByFrame.length < 10)) :
    whileLoopIterations rolls s = 0 := by
  rw [whileLoopIterations, dif_neg h]

theorem whileLoopIterations_step (rolls : List Roll) (s s' : LoopState)
    (h : s.roll < rolls.length) (h10 : s.scoresByFrame.length < 10)
    (hb : loopBody rolls s h = .ok s') :
    whileLoopIterations rolls s = 1 + whileLoopIterations rolls s' := by
  rw [whileLoopIterations, dif_pos ⟨h, h10⟩]
  split
  · rename_i e he; rw [hb] at he; cases he
  · rename_i t ht; rw [hb] at ht; cases ht; rfl

theorem whileLoopIterations_error (rolls : List Roll) (s : LoopState) (e : ErrorMsg)
    (h : s.roll < rolls.length) (h10 : s.scoresByFrame.length < 10)
    (hb : loopBody rolls s h = .error e) :
    whileLoopIterations rolls s = 1 := by
  rw [whileLoopIterations, dif_pos ⟨h, h10⟩]
  split
  · rfl
  · rename_i t ht; rw [hb] at ht; cases ht

/-- From any state the loop makes at most as many passes as there are frames
left to score and tokens left to read. -/
theorem whileLoopIterations_le (rolls : List Roll) :
    ∀ (m : Nat) (s : LoopState), rolls.length - s.roll ≤ m →
      whileLoopIterations rolls s ≤
        min (10 - s.scoresByFrame.length) (rolls.length - s.roll) := by
  intro m
  induction m with
  | zero =>
    intro s hm
    rw [whileLoopIterations_done rolls s (by omega)]
    exact Nat.zero_le _
  | succ m ih =>
    intro s hm
    by_cases hg : s.roll < rolls.length ∧ s.scoresByFrame.length < 10
    · rcases hb : loopBody rolls s hg.1 with e | t
      · rw [whileLoopIterations_error rolls s e hg.1 hg.2 hb]
        omega
      · rw [whileLoopIterations_step rolls s t hg.1 hg.2 hb]
        obtain ⟨⟨score, hsc⟩, hroll, hle⟩ := loopBody_advance rolls s t hg.1 hb
        have := ih t (by omega)
        rw [hsc, List.length_append, List.length_singleton] at this
        omega
    · rw [whileLoopIterations_done rolls s hg]
      exact Nat.zero_le _

/-- C14: `caclulateFrameScores` returns or fails on every roll sequence; every
pass through the loop body that does not throw appends exactly one frame result
and moves the cursor forward by 1 or 2; and the loop makes at most
`min 10 rolls.length` passes. -/
theorem caclulateFrameScores_terminates (rolls : List Roll) :
    ((∃ fs, caclulateFrameScores rolls = .ok fs) ∨
      (∃ e, caclulateFrameScores rolls = .error e)) ∧
    (∀ (s s' : LoopState) (h : s.roll < rolls.length), loopBody rolls s h = .ok s' →
      (∃ score, s'.scoresByFrame = s.scoresByFrame ++ [score]) ∧
      (s'.roll = s.roll + 1 ∨ s'.roll = s.roll + 2)) ∧
    whileLoopIterations rolls { scoresByFrame := [], currentFrameScore := 0, roll := 0 } ≤
      min 10 rolls.length := by
  refine ⟨?_, ?_, ?_⟩
  · rcases hr : caclulateFrameScores rolls with e | fs
    · exact Or.inr ⟨e, rfl⟩
    · exact Or.inl ⟨fs, rfl⟩
  · intro s s' h hb
    have := loopBody_advance rolls s s' h hb
    exact ⟨this.1, this.2.1⟩
  · have := whileLoopIterations_le rolls rolls.length
      { scoresByFrame := [], currentFrameScore := 0, roll := 0 } (by simp)
    simpa using this

/-- Witness for C14: in `1 2 X 3` the first pass appends the frame result 3 and
moves the cursor from 0 to 2. -/
theorem caclulateFrameScores_terminates_witness :
    (∃ score, [some 3] = ([] : List (Option Nat)) ++ [score]) ∧ (2 = 0 + 1 ∨ 2 = 0 + 2) :=
  (caclulateFrameScores_terminates [Pins 1, Pins 2, Strike, Pins 3]).2.1
    { scoresByFrame := [], currentFrameScore := 0, roll := 0 }
    { scoresByFrame := [some 3], currentFrameScore := 0, roll := 2 }
    (by decide) (by decide)

/-! ## Incomplete results come last -/

/-- The strike lookahead is incomplete only when fewer than two tokens follow. -/
theorem calculateStrikeScore_none (c : Nat) (rolls : List Roll)
    (hs : calculateStrikeScore c rolls = .ok none) : rolls.length ≤ c + 2 := by
  by_contra hlt
  have h : c + 2 < rolls.length := by omega
  rcases hx : rolls[c + 1] with a | _ | _
  · rcases hy : rolls[c + 2] with b | _ | _
    · rw [calculateStrikeScore_pins_pins c rolls a b h hx hy] at hs
      split at hs <;> cases hs
    · rw [calculateStrikeScore_pins_spare c rolls a h hx hy] at hs
      split at hs <;> cases hs
    · rw [calculateStrikeScore_pins_strike c rolls a h hx hy] at hs
      split at hs <;> cases hs
  · rw [calculateStrikeScore_spare c rolls h hx] at hs
    cases hs
  · rcases hy : rolls[c + 2] with b | _ | _
    · rw [calculateStrikeScore_strike_pins c rolls b h hx hy] at hs
      split at hs <;> cases hs
    · rw [calculateStrikeScore_strike_spare c rolls h hx hy] at hs
      cases hs
    · rw [calculateStrikeScore_strike_strike c rolls h hx hy] at hs
      cases hs

/-- The spare lookahead is incomplete only when no token follows. -/
theorem calculateSpareScore_none (c : Nat) (rolls : List Roll)
    (hs : calculateSpareScore c rolls = .ok none) : rolls.length ≤ c + 1 := by
  by_contra hlt
  have h : c + 1 < rolls.length := by omega
  rcases hx : rolls[c + 1] with n | _ | _
  · rw [calculateSpareScore_pins c rolls n h hx] at hs
    split at hs <;> cases hs
  · rw [calculateSpareScore_spare c rolls h hx] at hs
    cases hs
  · rw [calculateSpareScore_strike c rolls h hx] at hs
    cases hs

/-- A pass through the loop body that appends an incomplete result leaves at
most one token to read. -/
theorem loopBody_none_near_end (rolls : List Roll) (s s' : LoopState)
    (h : s.roll < rolls.length) (hb : loopBody rolls s h = .ok s')
    (hn : s'.scoresByFrame = s.scoresByFrame ++ [none]) :
    rolls.length ≤ s'.roll + 1 := by
  rcases loopBody_ok_cases rolls s s' h hb with
    ⟨hx, score, hst, rfl⟩ | ⟨a, hx, hl, rfl⟩ | ⟨a, hx, h1, hy, score, hsp, rfl⟩ |
    ⟨a, b, hx, h1, hy, hsum, rfl⟩
  · have : score = none := by simpa using hn
    subst this
    have := calculateStrikeScore_none s.roll rolls hst
    show rolls.length ≤ s.roll + 1 + 1
    omega
  · show rolls.length ≤ s.roll + 1 + 1
    omega
  · have : score = none := by simpa using hn
    subst this
    have := calculateSpareScore_none (s.roll + 1) rolls hsp
    show rolls.length ≤ s.roll + 2 + 1
    omega
  · simp at hn

/-- A pass through the loop body entered with at most one token left appends an
incomplete result and leaves no token to read. -/
theorem loopBody_last_token (rolls : List Roll) (s s' : LoopState)
    (h : s.roll < rolls.length) (hlast : rolls.length ≤ s.roll + 1)
    (hb : loopBody rolls s h = .ok s') :
    s'.scoresByFrame = s.scoresByFrame ++ [none] ∧ rolls.length ≤ s'.roll := by
  rcases loopBody_ok_cases rolls s s' h hb with
    ⟨hx, score, hst, rfl⟩ | ⟨a, hx, hl, rfl⟩ | ⟨a, hx, h1, hy, score, hsp, rfl⟩ |
    ⟨a, b, hx, h1, hy, hsum, rfl⟩
  · rw [calculateStrikeScore_short s.roll rolls (by omega)] at hst
    cases hst
    exact ⟨rfl, by show rolls.length ≤ s.roll + 1; omega⟩
  · exact ⟨rfl, by show rolls.length ≤ s.roll + 1; omega⟩
  · omega
  · omega

theorem incompleteTail_init (rolls : List Roll) :
    incompleteTail rolls { scoresByFrame := [], currentFrameScore := 0, roll := 0 } :=
  ⟨[], 0, rfl, by simp, Or.inl rfl⟩

theorem loopBody_incompleteTail (rolls : List Roll) (s s' : LoopState)
    (h : s.roll < rolls.length) (hP : incompleteTail rolls s)
    (hb : loopBody rolls s h = .ok s') : incompleteTail rolls s' := by
  obtain ⟨pre, m, hsc, hpre, hm⟩ := hP
  obtain ⟨⟨score, hsc'⟩, _, _⟩ := loopBody_advance rolls s s' h hb
  rcases hm with rfl | ⟨rfl, hlast⟩ | ⟨rfl, hend⟩
  · simp only [List.replicate_zero, List.append_nil] at hsc
    rcases score with _ | v
    · have := loopBody_none_near_end rolls s s' h hb hsc'
      exact ⟨pre, 1, by rw [hsc', hsc]; rfl, hpre, Or.inr (Or.inl ⟨rfl, this⟩)⟩
    · refine ⟨pre ++ [some v], 0, by rw [hsc', hsc]; simp, ?_, Or.inl rfl⟩
      intro x hx
      rcases List.mem_append.1 hx with hx | hx
      · exact hpre x hx
      · simp only [List.mem_singleton] at hx
        rw [hx]
        simp
  · obtain ⟨hnone, hend⟩ := loopBody_last_token rolls s s' h hlast hb
    refine ⟨pre, 2, ?_, hpre, Or.inr (Or.inr ⟨rfl, hend⟩)⟩
    rw [hnone, hsc, List.append_assoc]
    rfl
  · omega

/-- C15: when `caclulateFrameScores` succeeds, its result is a list of concrete
scores followed by at most two incomplete results, and no concrete score follows
an incomplete one. -/
theorem caclulateFrameScores_incomplete_suffix (rolls : List Roll)
    (fs : List (Option Nat)) (h : caclulateFrameScores rolls = .ok fs) :
    (∃ (pre : List (Option Nat)) (m : Nat),
      fs = pre ++ List.replicate m none ∧ (∀ x ∈ pre, ∃ v, x = some v) ∧ m ≤ 2) ∧
    (∀ (i j v : Nat), i < j → fs[i]? = some none → fs[j]? ≠ some (some v)) := by
  obtain ⟨s', hw, rfl⟩ := caclulateFrameScores_ok rolls fs h
  obtain ⟨⟨pre, m, hsc, hpre, hm⟩, _⟩ :=
    whileLoop_invariant rolls (incompleteTail rolls)
      (fun s t hs _ hP hb => loopBody_incompleteTail rolls s t hs hP hb)
      rolls.length _ s' (by simp) (incompleteTail_init rolls) hw
  refine ⟨⟨pre, m, hsc, ?_, by omega⟩, ?_⟩
  · intro x hx
    exact Option.ne_none_iff_exists'.1 (hpre x hx)
  · intro i j v hij hi hj
    rw [hsc] at hi hj
    have hge : pre.length ≤ i := by
      by_contra hlt
      rw [List.getElem?_append_left (by omega)] at hi
      exact hpre none (List.getElem?_mem hi) rfl
    rw [List.getElem?_append_right (by omega), List.getElem?_replicate] at hj
    split at hj <;> cases hj

/-- Witness for C15: `1 2 X 3` gives one concrete score followed by two
incomplete results. -/
theorem caclulateFrameScores_incomplete_suffix_witness :
    ∃ (pre : List (Option Nat)) (m : Nat),
      [some 3, none, none] = pre ++ List.replicate m none ∧
      (∀ x ∈ pre, ∃ v, x = some v) ∧ m ≤ 2 :=
  (caclulateFrameScores_incomplete_suffix [Pins 1, Pins 2, Strike, Pins 3]
    [some 3, none, none] (by decide)).1

/-! ## Appending rolls to a game -/

theorem calculateStrikeScore_append (c : Nat) (rolls extra : List Roll)
    (h : c + 2 < rolls.length) :
    calculateStrikeScore c (rolls ++ extra) = calculateStrikeScore c rolls := by
  have h' : c + 2 < (rolls ++ extra).length := by
    rw [List.length_append]; omega
  unfold calculateStrikeScore
  rw [dif_neg (by omega), dif_neg (by omega)]
  simp only [List.getElem_append_left (show c + 1 < rolls.length by omega),
    List.getElem_append_left h]

theorem calculateSpareScore_append (c : Nat) (rolls extra : List Roll)
    (h : c + 1 < rolls.length) :
    calculateSpareScore c (rolls ++ extra) = calculateSpareScore c rolls := by
  have h' : c + 1 < (rolls ++ extra).length := by
    rw [List.length_append]; omega
  unfold calculateSpareScore
  simp only [dif_neg (show ¬ c + 1 ≥ rolls.length by omega),
    dif_neg (show ¬ c + 1 ≥ (rolls ++ extra).length by omega),
    List.getElem_append_left h]


/-- What a pass through the loop body on `rolls` tells about the pass on
`rolls ++ extra` from a state with the same cursor and running frame score: an
error is the same error, a concrete frame result is the same result with the
same cursor move, and an incomplete result either ends the tokens of `rolls` or
comes from a strike on the last but one token. -/
theorem loopBody_append (rolls extra : List Roll) (s t : LoopState)
    (hr : t.roll = s.roll) (hc : t.currentFrameScore = s.currentFrameScore)
    (h : s.roll < rolls.length) (h' : t.roll < (rolls ++ extra).length) :
    (∀ e, loopBody rolls s h = .error e → loopBody (rolls ++ extra) t h' = .error e) ∧
    (∀ s' v, loopBody rolls s h = .ok s' →
      s'.scoresByFrame = s.scoresByFrame ++ [some v] →
      loopBody (rolls ++ extra) t h' =
        .ok { scoresByFrame := t.scoresByFrame ++ [some v],
              currentFrameScore := s'.currentFrameScore, roll := s'.roll }) ∧
    (∀ s', loopBody rolls s h = .ok s' →
      s'.scoresByFrame = s.scoresByFrame ++ [none] →
      rolls.length ≤ s'.roll ∨
      (rolls.length ≤ s.roll + 2 ∧ rolls[s.roll] = Strike ∧ s'.roll = s.roll + 1 ∧
        s'.currentFrameScore = 0)) := by
  obtain ⟨sc2, cur2, r2⟩ := t
  simp only at hr hc h'
  subst hr hc
  have e0 : (rolls ++ extra)[s.roll] = rolls[s.roll] := List.getElem_append_left h
  rcases hx : rolls[s.roll] with a | _ | _
  · by_cases h1 : s.roll + 1 < rolls.length
    · have h1' : s.roll + 1 < (rolls ++ extra).length := by
        rw [List.length_append]; omega
      have e1 : (rolls ++ extra)[s.roll + 1] = rolls[s.roll + 1] :=
        List.getElem_append_left h1
      rcases hy : rolls[s.roll + 1] with b | _ | _
      · have E1 := loopBody_pins_pins rolls s h a b hx h1 hy
        have E2 := loopBody_pins_pins (rolls ++ extra)
          { scoresByFrame := sc2, currentFrameScore := s.currentFrameScore, roll := s.roll }
          h' a b (by rw [e0, hx]) h1' (by rw [e1, hy])
        by_cases hsum : s.currentFrameScore + a + b ≥ 10
        · rw [if_pos hsum] at E1 E2
          refine ⟨?_, ?_, ?_⟩
          · intro e he
            rw [E1] at he
            cases he
            exact E2
          · intro s' v hb
            rw [E1] at hb
            cases hb
          · intro s' hb
            rw [E1] at hb
            cases hb
        · rw [if_neg hsum] at E1 E2
          refine ⟨?_, ?_, ?_⟩
          · intro e he
            rw [E1] at he
            cases he
          · intro s' v hb hsc
            rw [E1] at hb
            cases hb
            have : s.currentFrameScore + a + b = v := by simpa using hsc
            subst this
            exact E2
          · intro s' hb hsc
            rw [E1] at hb
            cases hb
            simp at hsc
      · have E1 := loopBody_pins_spare rolls s h a hx h1 hy
        have E2 := loopBody_pins_spare (rolls ++ extra)
          { scoresByFrame := sc2, currentFrameScore := s.currentFrameScore, roll := s.roll }
          h' a (by rw [e0, hx]) h1' (by rw [e1, hy])
        by_cases h2 : s.roll + 2 < rolls.length
        · rw [calculateSpareScore_append (s.roll + 1) rolls extra h2] at E2
          rcases hsp : calculateSpareScore (s.roll + 1) rolls with e | score
          · rw [hsp] at E1 E2
            refine ⟨?_, ?_, ?_⟩
            · intro e' he
              rw [E1] at he
              cases he
              exact E2
            · intro s' v hb
              rw [E1] at hb
              cases hb
            · intro s' hb
              rw [E1] at hb
              cases hb
          · rw [hsp] at E1 E2
            refine ⟨?_, ?_, ?_⟩
            · intro e' he
              rw [E1] at he
              cases he
            · intro s' v hb hsc
              rw [E1] at hb
              cases hb
              have : score = some v := by simpa using hsc
              subst this
              exact E2
            · intro s' hb hsc
              rw [E1] at hb
              cases hb
              have : score = none := by simpa using hsc
              subst this
              have := calculateSpareScore_none (s.roll + 1) rolls hsp
              omega
        · rw [calculateSpareScore_short (s.roll + 1) rolls (by omega)] at E1
          refine ⟨?_, ?_, ?_⟩
          · intro e' he
            rw [E1] at he
            cases he
          · intro s' v hb hsc
            rw [E1] at hb
            cases hb
            simp at hsc
          · intro s' hb _
            rw [E1] at hb
            cases hb
            exact Or.inl (by show rolls.length ≤ s.roll + 2; omega)
      · have E1 := loopBody_pins_strike rolls s h a hx h1 hy
        have E2 := loopBody_pins_strike (rolls ++ extra)
          { scoresByFrame := sc2, currentFrameScore := s.currentFrameScore, roll := s.roll }
          h' a (by rw [e0, hx]) h1' (by rw [e1, hy])
        refine ⟨?_, ?_, ?_⟩
        · intro e he
          rw [E1] at he
          cases he
          exact E2
        · intro s' v hb
          rw [E1] at hb
          cases hb
        · intro s' hb
          rw [E1] at hb
          cases hb
    · have E1 := loopBody_lone rolls s h a hx (by omega)
      refine ⟨?_, ?_, ?_⟩
      · intro e he
        rw [E1] at he
        cases he
      · intro s' v hb hsc
        rw [E1] at hb
        cases hb
        simp at hsc
      · intro s' hb _
        rw [E1] at hb
        cases hb
        exact Or.inl (by show rolls.length ≤ s.roll + 1; omega)
  · have E1 := loopBody_spare rolls s h hx
    have E2 := loopBody_spare (rolls ++ extra)
      { scoresByFrame := sc2, currentFrameScore := s.currentFrameScore, roll := s.roll }
      h' (by rw [e0, hx])
    refine ⟨?_, ?_, ?_⟩
    · intro e he
      rw [E1] at he
      cases he
      exact E2
    · intro s' v hb
      rw [E1] at hb
      cases hb
    · intro s' hb
      rw [E1] at hb
      cases hb
  · have E1 := loopBody_strike rolls s h hx
    have E2 := loopBody_strike (rolls ++ extra)
      { scoresByFrame := sc2, currentFrameScore := s.currentFrameScore, roll := s.roll }
      h' (by rw [e0, hx])
    by_cases h2 : s.roll + 2 < rolls.length
    · simp only [calculateStrikeScore_append s.roll rolls extra h2] at E2
      rcases hst : calculateStrikeScore s.roll rolls with e | score
      · rw [hst] at E1 E2
        refine ⟨?_, ?_, ?_⟩
        · intro e' he
          rw [E1] at he
          cases he
          exact E2
        · intro s' v hb
          rw [E1] at hb
          cases hb
        · intro s' hb
          rw [E1] at hb
          cases hb
      · rw [hst] at E1 E2
        refine ⟨?_, ?_, ?_⟩
        · intro e' he
          rw [E1] at he
          cases he
        · intro s' v hb hsc
          rw [E1] at hb
          cases hb
          have : score = some v := by simpa using hsc
          subst this
          exact E2
        · intro s' hb hsc
          rw [E1] at hb
          cases hb
          have : score = none := by simpa using hsc
          subst this
          have := calculateStrikeScore_none s.roll rolls hst
          omega
    · rw [calculateStrikeScore_short s.roll rolls (by omega)] at E1
      refine ⟨?_, ?_, ?_⟩
      · intro e' he
        rw [E1] at he
        cases he
      · intro s' v hb hsc
        rw [E1] at hb
        cases hb
        simp at hsc
      · intro s' hb _
        rw [E1] at hb
        cases hb
        exact Or.inr ⟨by omega, rfl, rfl, rfl⟩


/-- The loop only ever appends to the frame results. -/
theorem whileLoop_scores_extend (rolls : List Roll) (s s1 : LoopState)
    (hw : whileLoop rolls s = .ok s1) :
    ∃ l, s1.scoresByFrame = s.scoresByFrame ++ l := by
  refine (whileLoop_invariant rolls (fun u => ∃ l, u.scoresByFrame = s.scoresByFrame ++ l)
    ?_ rolls.length s s1 (by omega) ⟨[], by simp⟩ hw).1
  intro u u' hu _ hP hb
  obtain ⟨l, hl⟩ := hP
  obtain ⟨⟨score, hsc⟩, _, _⟩ := loopBody_advance rolls u u' hu hb
  exact ⟨l ++ [score], by rw [hsc, hl, List.append_assoc]⟩

/-- A run of the loop on `rolls` that ends with ten frame results, all those
appended during the run concrete, is also the run on `rolls ++ extra`. -/
theorem whileLoop_append_complete (rolls extra : List Roll) :
    ∀ (m : Nat) (s s1 : LoopState), rolls.length - s.roll ≤ m →
      whileLoop rolls s = .ok s1 → s1.scoresByFrame.length = 10 →
      (∀ i x, s.scoresByFrame.length ≤ i → s1.scoresByFrame[i]? = some x → x ≠ none) →
      whileLoop (rolls ++ extra) s = .ok s1 := by
  intro m
  induction m with
  | zero =>
    intro s s1 hm hw h10 _
    rw [whileLoop_done rolls s (by omega)] at hw
    cases hw
    exact whileLoop_done _ _ (by omega)
  | succ m ih =>
    intro s s1 hm hw h10 hall
    by_cases hg : s.roll < rolls.length ∧ s.scoresByFrame.length < 10
    · have h' : s.roll < (rolls ++ extra).length := by
        rw [List.length_append]; omega
      rcases hb : loopBody rolls s hg.1 with e | s'
      · rw [whileLoop_error rolls s e hg.1 hg.2 hb] at hw
        cases hw
      · rw [whileLoop_step rolls s s' hg.1 hg.2 hb] at hw
        obtain ⟨⟨x, hsc⟩, hroll, _⟩ := loopBody_advance rolls s s' hg.1 hb
        obtain ⟨l, hl⟩ := whileLoop_scores_extend rolls s' s1 hw
        have hx : s1.scoresByFrame[s.scoresByFrame.length]? = some x := by
          rw [hl, hsc, List.append_assoc, List.getElem?_append_right (le_refl _)]
          simp
        obtain ⟨v, rfl⟩ := Option.ne_none_iff_exists'.1 (hall _ x (le_refl _) hx)
        have hb' := (loopBody_append rolls extra s s rfl rfl hg.1 h').2.1 s' v hb hsc
        rw [← hsc] at hb'
        rw [whileLoop_step (rolls ++ extra) s s' h' hg.2 hb']
        refine ih s' s1 (by omega) hw h10 ?_
        intro i y hi hy
        refine hall i y ?_ hy
        rw [hsc, List.length_append, List.length_singleton] at hi
        omega
    · rw [whileLoop_done rolls s hg] at hw
      cases hw
      exact whileLoop_done _ _ (by omega)

/-- C18: when `caclulateFrameScores rolls` returns ten frame results, all
concrete, then for every `extra`, whatever its tokens, `caclulateFrameScores
(rolls ++ extra)` succeeds and returns the same ten results. -/
theorem caclulateFrameScores_append_complete (rolls extra : List Roll)
    (fs : List (Option Nat)) (h : caclulateFrameScores rolls = .ok fs)
    (hlen : fs.length = 10) (hall : ∀ x ∈ fs, ∃ v, x = some v) :
    caclulateFrameScores (rolls ++ extra) = .ok fs := by
  obtain ⟨s1, hw, rfl⟩ := caclulateFrameScores_ok rolls fs h
  have := whileLoop_append_complete rolls extra rolls.length
    { scoresByFrame := [], currentFrameScore := 0, roll := 0 } s1 (by simp) hw hlen
    (by
      intro i x _ hx
      obtain ⟨hi, hxi⟩ := List.getElem?_eq_some.1 hx
      obtain ⟨v, hv⟩ := hall x (hxi ▸ List.getElem_mem hi)
      rw [hv]
      simp)
  unfold caclulateFrameScores
  rw [this]

/-- Witness for C18: after ten open frames of `0 0`, a misplaced spare and
strike are ignored. -/
theorem caclulateFrameScores_append_complete_witness :
    caclulateFrameScores (List.replicate 20 (Pins 0) ++ [Spare, Strike]) =
      .ok (List.replicate 10 (some 0)) :=
  caclulateFrameScores_append_complete (List.replicate 20 (Pins 0)) [Spare, Strike]
    (List.replicate 10 (some 0)) (by decide) (by decide)
    (by intro x hx; exact ⟨0, (List.mem_replicate.1 hx).2⟩)

/-! ## Resolved frames and errors survive appended rolls -/

theorem resolved_of_extend (a b l : List (Option Nat)) (hlen : a.length ≤ b.length)
    (hres : ∀ (i v : Nat), a[i]? = some (some v) → b[i]? = some (some v)) :
    a.length ≤ (b ++ l).length ∧
    ∀ (i v : Nat), a[i]? = some (some v) → (b ++ l)[i]? = some (some v) := by
  refine ⟨by rw [List.length_append]; omega, ?_⟩
  intro i v hi
  obtain ⟨hlt, _⟩ := List.getElem?_eq_some.1 hi
  rw [List.getElem?_append_left (by omega)]
  exact hres i v hi

theorem resolved_append (a b : List (Option Nat)) (x y : Option Nat)
    (hlen : b.length = a.length)
    (hres : ∀ (i v : Nat), a[i]? = some (some v) → b[i]? = some (some v))
    (hxy : ∀ v, x = some v → y = some v) :
    ∀ (i v : Nat), (a ++ [x])[i]? = some (some v) → (b ++ [y])[i]? = some (some v) := by
  intro i v hi
  by_cases hlt : i < a.length
  · rw [List.getElem?_append_left hlt] at hi
    rw [List.getElem?_append_left (by omega)]
    exact hres i v hi
  · obtain ⟨hi2, _⟩ := List.getElem?_eq_some.1 hi
    rw [List.length_append, List.length_singleton] at hi2
    have heq : i = a.length := by omega
    subst heq
    rw [List.getElem?_append_right (le_refl _)] at hi
    rw [List.getElem?_append_right (by omega), hlen]
    simp only [Nat.sub_self, List.getElem?_cons_zero, Option.some.injEq] at hi ⊢
    exact hxy v hi

/-- A successful pass through the loop body on a strike resets the running
frame score and moves the cursor by one. -/
theorem loopBody_strike_ok (rolls : List Roll) (s s' : LoopState)
    (h : s.roll < rolls.length) (hx : rolls[s.roll] = Strike)
    (hb : loopBody rolls s h = .ok s') :
    s'.roll = s.roll + 1 ∧ s'.currentFrameScore = 0 := by
  rw [loopBody_strike rolls s h hx] at hb
  rcases hst : calculateStrikeScore s.roll rolls with e | score
  · rw [hst] at hb
    cases hb
  · rw [hst] at hb
    cases hb
    exact ⟨rfl, rfl⟩

/-- Two runs of the loop, on `rolls` and on `rolls ++ extra`, from states with
the same cursor, running frame score and number of results: every concrete
result of the first run is a result of the second at the same index. -/
theorem whileLoop_append_resolved (rolls extra : List Roll) :
    ∀ (m : Nat) (s t s1 s2 : LoopState), rolls.length - s.roll ≤ m →
      t.roll = s.roll → t.currentFrameScore = s.currentFrameScore →
      t.scoresByFrame.length = s.scoresByFrame.length →
      (∀ (i v : Nat), s.scoresByFrame[i]? = some (some v) → t.scoresByFrame[i]? = some (some v)) →
      whileLoop rolls s = .ok s1 → whileLoop (rolls ++ extra) t = .ok s2 →
      s1.scoresByFrame.length ≤ s2.scoresByFrame.length ∧
      ∀ (i v : Nat), s1.scoresByFrame[i]? = some (some v) →
        s2.scoresByFrame[i]? = some (some v) := by
  intro m
  induction m with
  | zero =>
    intro s t s1 s2 hm _ _ hlen hres hw hw2
    rw [whileLoop_done rolls s (by omega)] at hw
    cases hw
    obtain ⟨l, hl⟩ := whileLoop_scores_extend _ t s2 hw2
    rw [hl]
    exact resolved_of_extend _ _ l (by omega) hres
  | succ m ih =>
    intro s t s1 s2 hm hr hc hlen hres hw hw2
    by_cases hg : s.roll < rolls.length ∧ s.scoresByFrame.length < 10
    · have h' : t.roll < (rolls ++ extra).length := by
        rw [List.length_append]; omega
      have ht10 : t.scoresByFrame.length < 10 := by omega
      rcases hb : loopBody rolls s hg.1 with e | s'
      · rw [whileLoop_error rolls s e hg.1 hg.2 hb] at hw
        cases hw
      · rw [whileLoop_step rolls s s' hg.1 hg.2 hb] at hw
        rcases hb2 : loopBody (rolls ++ extra) t h' with e | t'
        · rw [whileLoop_error _ t e h' ht10 hb2] at hw2
          cases hw2
        · rw [whileLoop_step _ t t' h' ht10 hb2] at hw2
          obtain ⟨⟨x, hsc⟩, hroll, _⟩ := loopBody_advance rolls s s' hg.1 hb
          obtain ⟨⟨y, hsc2⟩, _, _⟩ := loopBody_advance _ t t' h' hb2
          obtain ⟨_, hB, hC⟩ := loopBody_append rolls extra s t hr hc hg.1 h'
          have hlen' : t'.scoresByFrame.length = s'.scoresByFrame.length := by
            simp [hsc, hsc2, hlen]
          rcases x with _ | v
          · have hres' : ∀ (i v : Nat), s'.scoresByFrame[i]? = some (some v) →
                t'.scoresByFrame[i]? = some (some v) := by
              rw [hsc, hsc2]
              exact resolved_append _ _ none y hlen hres (by intro v hv; cases hv)
            rcases hC s' hb hsc with hend | ⟨_, hx, hr1, hc1⟩
            · rw [whileLoop_done rolls s' (by omega)] at hw
              cases hw
              obtain ⟨l, hl⟩ := whileLoop_scores_extend _ t' s2 hw2
              rw [hl]
              exact resolved_of_extend _ _ l (by omega) hres'
            · have e0 : (rolls ++ extra)[t.roll] = Strike := by
                simp only [hr]
                rw [List.getElem_append_left hg.1, hx]
              obtain ⟨hr2, hc2⟩ := loopBody_strike_ok _ t t' h' e0 hb2
              exact ih s' t' s1 s2 (by omega) (by omega) (by omega) hlen' hres' hw hw2
          · have hb2' := hB s' v hb hsc
            rw [hb2'] at hb2
            injection hb2 with ht'
            subst ht'
            refine ih s' _ s1 s2 (by omega) ?_ ?_ hlen' ?_ hw hw2
            · rfl
            · rfl
            · rw [hsc]
              exact resolved_append _ _ (some v) (some v) hlen hres (fun _ hv => hv)
    · rw [whileLoop_done rolls s hg] at hw
      cases hw
      obtain ⟨l, hl⟩ := whileLoop_scores_extend _ t s2 hw2
      rw [hl]
      exact resolved_of_extend _ _ l (by omega) hres

/-- C16: when `caclulateFrameScores rolls` returns `fs` and
`caclulateFrameScores (rolls ++ extra)` returns `gs`, then `gs` is at least as
long as `fs` and agrees with `fs` at every index where `fs` has a concrete
score. -/
theorem caclulateFrameScores_append_resolved (rolls extra : List Roll)
    (fs gs : List (Option Nat)) (h1 : caclulateFrameScores rolls = .ok fs)
    (h2 : caclulateFrameScores (rolls ++ extra) = .ok gs) :
    fs.length ≤ gs.length ∧ ∀ (i v : Nat), fs[i]? = some (some v) → gs[i]? = some (some v) := by
  obtain ⟨s1, hw1, rfl⟩ := caclulateFrameScores_ok rolls fs h1
  obtain ⟨s2, hw2, rfl⟩ := caclulateFrameScores_ok (rolls ++ extra) gs h2
  exact whileLoop_append_resolved rolls extra rolls.length
    { scoresByFrame := [], currentFrameScore := 0, roll := 0 }
    { scoresByFrame := [], currentFrameScore := 0, roll := 0 } s1 s2 (by simp)
    rfl rfl rfl (fun _ _ hi => hi) hw1 hw2

/-- Witness for C16: `1 2 X 3` gives `[3, incomplete, incomplete]`; with `4`
appended it gives `[3, 17, 7]`, the resolved 3 unchanged. -/
theorem caclulateFrameScores_append_resolved_witness :
    [some 3, (none : Option Nat), none].length ≤ [some 3, some 17, some 7].length ∧
    ∀ (i v : Nat), [some 3, (none : Option Nat), none][i]? = some (some v) →
      [some 3, some 17, some 7][i]? = some (some v) :=
  caclulateFrameScores_append_resolved [Pins 1, Pins 2, Strike, Pins 3] [Pins 4]
    [some 3, none, none] [some 3, some 17, some 7] (by decide) (by decide)

/-- A failing call is a failing run of the loop from the initial state. -/
theorem caclulateFrameScores_error (rolls : List Roll) (e : ErrorMsg) :
    caclulateFrameScores rolls = .error e ↔
      whileLoop rolls { scoresByFrame := [], currentFrameScore := 0, roll := 0 } = .error e := by
  unfold caclulateFrameScores
  rcases hw : whileLoop rolls { scoresByFrame := [], currentFrameScore := 0, roll := 0 }
    with e' | s'
  · simp
  · simp

/-- A run of the loop entered with at most one token left fails only on a
spare at the cursor, with `spareErrorMsg`. -/
theorem whileLoop_error_last_token (rolls : List Roll) (u : LoopState) (e : ErrorMsg)
    (hw : whileLoop rolls u = .error e) (hlast : rolls.length ≤ u.roll + 1) :
    ∃ hu : u.roll < rolls.length,
      rolls[u.roll] = Spare ∧ e = spareErrorMsg ∧ u.scoresByFrame.length < 10 := by
  by_cases hg : u.roll < rolls.length ∧ u.scoresByFrame.length < 10
  · rcases hb : loopBody rolls u hg.1 with e' | u'
    · rw [whileLoop_error rolls u e' hg.1 hg.2 hb] at hw
      cases hw
      rcases hx : rolls[u.roll] with a | _ | _
      · rw [loopBody_lone rolls u hg.1 a hx (by omega)] at hb
        cases hb
      · rw [loopBody_spare rolls u hg.1 hx] at hb
        cases hb
        exact ⟨hg.1, hx, rfl, hg.2⟩
      · rw [loopBody_strike rolls u hg.1 hx,
          calculateStrikeScore_short u.roll rolls (by omega)] at hb
        cases hb
    · rw [whileLoop_step rolls u u' hg.1 hg.2 hb] at hw
      have := (loopBody_last_token rolls u u' hg.1 hlast hb).2
      rw [whileLoop_done rolls u' (by omega)] at hw
      cases hw
  · rw [whileLoop_done rolls u hg] at hw
    cases hw

/-- A failing run of the loop on `rolls` fails with the same error on
`rolls ++ extra`, from any state with the same cursor, running frame score and
number of results. -/
theorem whileLoop_append_error (rolls extra : List Roll) (e : ErrorMsg) :
    ∀ (m : Nat) (s t : LoopState), rolls.length - s.roll ≤ m →
      t.roll = s.roll → t.currentFrameScore = s.currentFrameScore →
      t.scoresByFrame.length = s.scoresByFrame.length →
      whileLoop rolls s = .error e → whileLoop (rolls ++ extra) t = .error e := by
  intro m
  induction m with
  | zero =>
    intro s t hm _ _ _ hw
    rw [whileLoop_done rolls s (by omega)] at hw
    cases hw
  | succ m ih =>
    intro s t hm hr hc hlen hw
    by_cases hg : s.roll < rolls.length ∧ s.scoresByFrame.length < 10
    · have hext : (rolls ++ extra).length = rolls.length + extra.length :=
        List.length_append _ _
      have h' : t.roll < (rolls ++ extra).length := by omega
      have ht10 : t.scoresByFrame.length < 10 := by omega
      obtain ⟨hA, hB, hC⟩ := loopBody_append rolls extra s t hr hc hg.1 h'
      rcases hb : loopBody rolls s hg.1 with e' | s'
      · rw [whileLoop_error rolls s e' hg.1 hg.2 hb] at hw
        cases hw
        exact whileLoop_error _ t e h' ht10 (hA e hb)
      · rw [whileLoop_step rolls s s' hg.1 hg.2 hb] at hw
        obtain ⟨⟨x, hsc⟩, hroll, _⟩ := loopBody_advance rolls s s' hg.1 hb
        rcases x with _ | v
        · rcases hC s' hb hsc with hend | ⟨hnear, hx, hr1, hc1⟩
          · rw [whileLoop_done rolls s' (by omega)] at hw
            cases hw
          · obtain ⟨hu, hsp, he, hlt⟩ :=
              whileLoop_error_last_token rolls s' e hw (by omega)
            subst he
            have hlen' : s'.scoresByFrame.length = s.scoresByFrame.length + 1 := by
              simp [hsc]
            have e0 : (rolls ++ extra)[t.roll] = Strike := by
              simp only [hr]
              rw [List.getElem_append_left hg.1, hx]
            have h1' : t.roll + 1 < (rolls ++ extra).length := by omega
            have e1 : (rolls ++ extra)[t.roll + 1] = Spare := by
              simp only [hr]
              rw [List.getElem_append_left (by omega)]
              simpa only [hr1] using hsp
            by_cases h2 : t.roll + 2 < (rolls ++ extra).length
            · apply whileLoop_error _ t spareErrorMsg h' ht10
              rw [loopBody_strike _ t h' e0, calculateStrikeScore_spare _ _ h2 e1]
            · have hb1 : loopBody (rolls ++ extra) t h' =
                  .ok { scoresByFrame := t.scoresByFrame ++ [none], currentFrameScore := 0,
                        roll := t.roll + 1 } := by
                rw [loopBody_strike _ t h' e0, calculateStrikeScore_short _ _ (by omega)]
              rw [whileLoop_step _ t _ h' ht10 hb1]
              exact whileLoop_error _ _ spareErrorMsg h1'
                (by simp only [List.length_append, List.length_singleton]; omega)
                (loopBody_spare _ _ h1' e1)
        · have hb2 := hB s' v hb hsc
          rw [whileLoop_step _ t _ h' ht10 hb2]
          exact ih s' _ (by omega) rfl rfl (by simp [hsc, hlen]) hw
    · rw [whileLoop_done rolls s hg] at hw
      cases hw

/-- C17: when `caclulateFrameScores rolls` fails with error `e`, so does
`caclulateFrameScores (rolls ++ extra)`, with the same `e`. -/
theorem caclulateFrameScores_append_error (rolls extra : List Roll) (e : ErrorMsg)
    (h : caclulateFrameScores rolls = .error e) :
    caclulateFrameScores (rolls ++ extra) = .error e := by
  rw [caclulateFrameScores_error] at h ⊢
  exact whileLoop_append_error rolls extra e rolls.length _ _ (by simp) rfl rfl rfl h

/-- Witness for C17: `X /` fails with `spareErrorMsg` at the spare opening the
second frame; with `5` appended the strike lookahead fails with the same
error. -/
theorem caclulateFrameScores_append_error_witness :
    caclulateFrameScores ([Strike, Spare] ++ [Pins 5]) = .error spareErrorMsg :=
  caclulateFrameScores_append_error [Strike, Spare] [Pins 5] spareErrorMsg (by decide)

/-! ## Where `scoreErrorMsg` can come from -/

/-- With pin counts at most 9 the strike lookahead never exceeds 30. -/
theorem calculateStrikeScore_ne_scoreErrorMsg (rolls : List Roll)
    (hp : ∀ r ∈ rolls, ∀ n, r = Pins n → n ≤ 9) (c : Nat) :
    calculateStrikeScore c rolls ≠ .error scoreErrorMsg := by
  intro hs
  by_cases h : c + 2 < rolls.length
  · have m1 : rolls[c + 1] ∈ rolls := List.getElem_mem (by omega)
    have m2 : rolls[c + 2] ∈ rolls := List.getElem_mem (by omega)
    rcases hx : rolls[c + 1] with a | _ | _
    · have ha : a ≤ 9 := hp _ m1 a hx
      rcases hy : rolls[c + 2] with b | _ | _
      · have hb : b ≤ 9 := hp _ m2 b hy
        rw [calculateStrikeScore_pins_pins c rolls a b h hx hy, if_neg (by omega)] at hs
        cases hs
      · rw [calculateStrikeScore_pins_spare c rolls a h hx hy, if_neg (by omega)] at hs
        cases hs
      · rw [calculateStrikeScore_pins_strike c rolls a h hx hy, if_pos (by omega)] at hs
        cases hs
    · rw [calculateStrikeScore_spare c rolls h hx] at hs
      cases hs
    · rcases hy : rolls[c + 2] with b | _ | _
      · have hb : b ≤ 9 := hp _ m2 b hy
        rw [calculateStrikeScore_strike_pins c rolls b h hx hy, if_neg (by omega)] at hs
        cases hs
      · rw [calculateStrikeScore_strike_spare c rolls h hx hy] at hs
        cases hs
      · rw [calculateStrikeScore_strike_strike c rolls h hx hy] at hs
        cases hs
  · rw [calculateStrikeScore_short c rolls (by omega)] at hs
    cases hs

/-- With pin counts at most 9 the spare lookahead never exceeds 20. -/
theorem calculateSpareScore_ne_scoreErrorMsg (rolls : List Roll)
    (hp : ∀ r ∈ rolls, ∀ n, r = Pins n → n ≤ 9) (c : Nat) :
    calculateSpareScore c rolls ≠ .error scoreErrorMsg := by
  intro hs
  by_cases h : c + 1 < rolls.length
  · have m1 : rolls[c + 1] ∈ rolls := List.getElem_mem (by omega)
    rcases hx : rolls[c + 1] with n | _ | _
    · have hn : n ≤ 9 := hp _ m1 n hx
      rw [calculateSpareScore_pins c rolls n h hx, if_neg (by omega)] at hs
      cases hs
    · rw [calculateSpareScore_spare c rolls h hx] at hs
      cases hs
    · rw [calculateSpareScore_strike c rolls h hx] at hs
      cases hs
  · rw [calculateSpareScore_short c rolls (by omega)] at hs
    cases hs

/-- With pin counts at most 9, a pass through the loop body throws
`scoreErrorMsg` only on two numeric rolls whose sum, added to the running frame
score, reaches 10. -/
theorem loopBody_scoreErrorMsg (rolls : List Roll)
    (hp : ∀ r ∈ rolls, ∀ n, r = Pins n → n ≤ 9) (s : LoopState)
    (h : s.roll < rolls.length) (hb : loopBody rolls s h = .error scoreErrorMsg) :
    ∃ (a b : Nat) (h1 : s.roll + 1 < rolls.length),
      rolls[s.roll] = Pins a ∧ rolls[s.roll + 1] = Pins b ∧
      10 ≤ s.currentFrameScore + a + b := by
  rcases hx : rolls[s.roll] with a | _ | _
  · by_cases h1 : s.roll + 1 < rolls.length
    · rcases hy : rolls[s.roll + 1] with b | _ | _
      · rw [loopBody_pins_pins rolls s h a b hx h1 hy] at hb
        by_cases hsum : s.currentFrameScore + a + b ≥ 10
        · exact ⟨a, b, h1, rfl, hy, hsum⟩
        · rw [if_neg hsum] at hb
          cases hb
      · rw [loopBody_pins_spare rolls s h a hx h1 hy] at hb
        rcases hsp : calculateSpareScore (s.roll + 1) rolls with e | score
        · rw [hsp] at hb
          cases hb
          exact absurd hsp (calculateSpareScore_ne_scoreErrorMsg rolls hp _)
        · rw [hsp] at hb
          cases hb
      · rw [loopBody_pins_strike rolls s h a hx h1 hy] at hb
        cases hb
    · rw [loopBody_lone rolls s h a hx (by omega)] at hb
      cases hb
  · rw [loopBody_spare rolls s h hx] at hb
    cases hb
  · rw [loopBody_strike rolls s h hx] at hb
    rcases hst : calculateStrikeScore s.roll rolls with e | score
    · rw [hst] at hb
      cases hb
      exact absurd hst (calculateStrikeScore_ne_scoreErrorMsg rolls hp _)
    · rw [hst] at hb
      cases hb

/-- Loop invariant rule for failures: when the loop fails, the failing pass
through the body starts from a state having every property kept by the
successful passes. -/
theorem whileLoop_error_invariant (rolls : List Roll) (P : LoopState → Prop)
    (hstep : ∀ (s s' : LoopState) (h : s.roll < rolls.length),
      s.scoresByFrame.length < 10 → P s → loopBody rolls s h = .ok s' → P s')
    (e : ErrorMsg) :
    ∀ (m : Nat) (s : LoopState), rolls.length - s.roll ≤ m → P s →
      whileLoop rolls s = .error e →
      ∃ (u : LoopState) (hu : u.roll < rolls.length),
        P u ∧ u.scoresByFrame.length < 10 ∧ loopBody rolls u hu = .error e := by
  intro m
  induction m with
  | zero =>
    intro s hm _ hw
    rw [whileLoop_done rolls s (by omega)] at hw
    cases hw
  | succ m ih =>
    intro s hm hP hw
    by_cases hg : s.roll < rolls.length ∧ s.scoresByFrame.length < 10
    · rcases hb : loopBody rolls s hg.1 with e' | t
      · rw [whileLoop_error rolls s e' hg.1 hg.2 hb] at hw
        cases hw
        exact ⟨s, hg.1, hP, hg.2, hb⟩
      · rw [whileLoop_step rolls s t hg.1 hg.2 hb] at hw
        have hadv := loopBody_advance rolls s t hg.1 hb
        exact ih t (by omega) (hstep s t hg.1 hg.2 hP hb) hw
    · rw [whileLoop_done rolls s hg] at hw
      cases hw

/-- C19: on a roll sequence whose pin counts are all at most 9, neither
`calculateStrikeScore` nor `calculateSpareScore` ever fails with
`scoreErrorMsg` (after a numeric roll the spare score is at most 19), so
`caclulateFrameScores` fails with `scoreErrorMsg` only when one of the first ten
frames consists of two numeric rolls summing to 10 or more. -/
theorem scoreErrorMsg_only_from_open_frame (rolls : List Roll)
    (hp : ∀ r ∈ rolls, ∀ n, r = Pins n → n ≤ 9) :
    (∀ c, calculateStrikeScore c rolls ≠ .error scoreErrorMsg) ∧
    (∀ c, calculateSpareScore c rolls ≠ .error scoreErrorMsg) ∧
    (∀ c n, rolls[c + 1]? = some (Pins n) →
      calculateSpareScore c rolls = .ok (some (10 + n)) ∧ 10 + n ≤ 19) ∧
    (caclulateFrameScores rolls = .error scoreErrorMsg →
      ∃ k a b, k < 10 ∧ rolls[frameStart rolls k]? = some (Pins a) ∧
        rolls[frameStart rolls k + 1]? = some (Pins b) ∧ 10 ≤ a + b) := by
  refine ⟨calculateStrikeScore_ne_scoreErrorMsg rolls hp,
    calculateSpareScore_ne_scoreErrorMsg rolls hp, ?_, ?_⟩
  · intro c n hn
    obtain ⟨h, hx⟩ := List.getElem?_eq_some.1 hn
    have hn9 : n ≤ 9 := hp _ (List.getElem_mem h) n hx
    rw [calculateSpareScore_pins c rolls n h hx, if_neg (by omega)]
    exact ⟨rfl, by omega⟩
  · intro herr
    rw [caclulateFrameScores_error] at herr
    obtain ⟨u, hu, ⟨hcur, hroll, _, _⟩, h10, hb⟩ :=
      whileLoop_error_invariant rolls (atFrameStart rolls)
        (fun s t hs hlt hP hb => loopBody_atFrameStart rolls s t hs hlt hP hb)
        scoreErrorMsg rolls.length _ (by simp) (atFrameStart_init rolls) herr
    obtain ⟨a, b, h1, hx, hy, hsum⟩ := loopBody_scoreErrorMsg rolls hp u hu hb
    refine ⟨u.scoresByFrame.length, a, b, h10, ?_, ?_, by omega⟩
    · rw [← hroll, List.getElem?_eq_getElem hu, hx]
    · rw [← hroll, List.getElem?_eq_getElem h1, hy]

/-- Witness for C19: `9 9` fails with `scoreErrorMsg`, and its first frame is
two numeric rolls summing to 18. -/
theorem scoreErrorMsg_only_from_open_frame_witness :
    ∃ k a b, k < 10 ∧ [Pins 9, Pins 9][frameStart [Pins 9, Pins 9] k]? = some (Pins a) ∧
      [Pins 9, Pins 9][frameStart [Pins 9, Pins 9] k + 1]? = some (Pins b) ∧ 10 ≤ a + b :=
  (scoreErrorMsg_only_from_open_frame [Pins 9, Pins 9]
    (by intro r hr n hn; subst hn; simp at hr; omega)).2.2.2 (by decide)

end Bowling
